import Mathlib

/-!
Verification of the revlog index codec, the revlog docket and the upgrade
engine of this repository, against a shallow embedding of the Python sources
(mercurial/pure/parsers.py, mercurial/revlogutils/docket.py and
mercurial/upgrade_utils/engine.py).

Byte strings are modelled as `List Nat` whose elements are below 256.
Machine integers are modelled as `Nat`/`Int`; the range checks performed by
`struct.pack` appear as explicit range hypotheses on the theorems.
-/

namespace Hg

/-- Big-endian encoding of `v` into `w` bytes (model of a fixed-width
`struct.pack` field; values out of range wrap, and theorems carry explicit
range hypotheses standing in for the `struct.error` range check). -/
def toBytesBE : Nat → Nat → List Nat
  | 0, _ => []
  | w + 1, v => toBytesBE w (v / 256) ++ [v % 256]

/-- Big-endian decoding of a byte list (model of `struct.unpack` for an
unsigned field). -/
def fromBytesBE (l : List Nat) : Nat :=
  l.foldl (fun acc b => acc * 256 + b) 0

theorem toBytesBE_length (w v : Nat) : (toBytesBE w v).length = w := by
  induction w generalizing v with
  | zero => rfl
  | succ w ih => simp [toBytesBE, ih]

theorem fromBytesBE_append_singleton (l : List Nat) (b : Nat) :
    fromBytesBE (l ++ [b]) = fromBytesBE l * 256 + b := by
  simp [fromBytesBE, List.foldl_append]

theorem fromBytesBE_toBytesBE (w v : Nat) (h : v < 2 ^ (8 * w)) :
    fromBytesBE (toBytesBE w v) = v := by
  induction w generalizing v with
  | zero =>
      have : v = 0 := by simpa using h
      simp [this, toBytesBE, fromBytesBE]
  | succ w ih =>
      have hp : 2 ^ (8 * (w + 1)) = 2 ^ (8 * w) * 256 := by
        rw [show 8 * (w + 1) = 8 * w + 8 by ring, pow_add]
        norm_num
      have hv : v / 256 < 2 ^ (8 * w) := by
        rw [hp] at h
        omega
      rw [toBytesBE, fromBytesBE_append_singleton, ih _ hv]
      omega

theorem fromBytesBE_lt (l : List Nat) (h : ∀ b ∈ l, b < 256) :
    fromBytesBE l < 2 ^ (8 * l.length) := by
  induction l using List.reverseRecOn with
  | nil => simp [fromBytesBE]
  | append_singleton l b ih =>
      have hb : b < 256 := h b (by simp)
      have hl : fromBytesBE l < 2 ^ (8 * l.length) := ih (fun x hx => h x (by simp [hx]))
      have hp : 2 ^ (8 * (l.length + 1)) = 2 ^ (8 * l.length) * 256 := by
        rw [show 8 * (l.length + 1) = 8 * l.length + 8 by ring, pow_add]
        norm_num
      rw [fromBytesBE_append_singleton]
      simp only [List.length_append, List.length_singleton]
      rw [hp]
      omega

/-- Model of packing a `struct` signed 32-bit big-endian field. -/
def packI32 (v : Int) : List Nat := toBytesBE 4 (v.emod (2 ^ 32)).toNat

/-- Model of unpacking a `struct` signed 32-bit big-endian field. -/
def unpackI32 (l : List Nat) : Int :=
  if fromBytesBE l < 2 ^ 31 then (fromBytesBE l : Int) else (fromBytesBE l : Int) - 2 ^ 32

theorem packI32_length (v : Int) : (packI32 v).length = 4 :=
  toBytesBE_length 4 _

theorem unpackI32_packI32 (v : Int) (h1 : -(2 ^ 31) ≤ v) (h2 : v < 2 ^ 31) :
    unpackI32 (packI32 v) = v := by
  have hm0 : 0 ≤ v.emod (2 ^ 32) := Int.emod_nonneg _ (by norm_num)
  have hm1 : v.emod (2 ^ 32) < 2 ^ 32 := Int.emod_lt_of_pos _ (by norm_num)
  have hlt : (v.emod (2 ^ 32)).toNat < 2 ^ (8 * 4) := by
    have he : (2 : Nat) ^ (8 * 4) = 2 ^ 32 := by norm_num
    rw [he]
    omega
  have key : v.emod (2 ^ 32) = v ∨ v.emod (2 ^ 32) = v + 2 ^ 32 := by
    rcases le_or_lt 0 v with h | h
    · left
      exact Int.emod_eq_of_lt h (by omega)
    · right
      have h32 : (0 : Int) ≤ v + 2 ^ 32 := by omega
      have he : (v + 2 ^ 32).emod (2 ^ 32) = v + 2 ^ 32 :=
        Int.emod_eq_of_lt h32 (by omega)
      have hr : (v + 2 ^ 32).emod (2 ^ 32) = v.emod (2 ^ 32) := by
        have hml := Int.add_mul_emod_self_left v (2 ^ 32) 1
        rw [mul_one] at hml
        exact hml
      omega
  unfold unpackI32 packI32
  rw [fromBytesBE_toBytesBE 4 _ hlt]
  split <;> omega

/-- Model of a `struct` fixed-width string field such as `20s`: truncate or
zero-pad on the right to exactly `w` bytes. -/
def packFixed (w : Nat) (l : List Nat) : List Nat :=
  l.take w ++ List.replicate (w - l.length) 0

theorem packFixed_of_length (w : Nat) (l : List Nat) (h : l.length = w) :
    packFixed w l = l := by
  subst h
  simp [packFixed]

theorem packFixed_length_of_le (w : Nat) (l : List Nat) (h : l.length ≤ w) :
    (packFixed w l).length = w := by
  simp [packFixed]
  omega

end Hg

namespace Hg

theorem take_append_len {α : Type} (l₁ l₂ : List α) (n : Nat) (h : l₁.length = n) :
    (l₁ ++ l₂).take n = l₁ := List.take_left' h

theorem drop_append_len {α : Type} (l₁ l₂ : List α) (n : Nat) (h : l₁.length = n) :
    (l₁ ++ l₂).drop n = l₂ := List.drop_left' h

theorem drop_chunk {α : Type} {bs t l₁ : List α} {m n : Nat}
    (h : bs.drop m = l₁ ++ t) (hl : l₁.length = n) : bs.drop (m + n) = t := by
  rw [← List.drop_drop, h, List.drop_left' hl]

/-- Modelled from the spec: the compression-mode tags of section 3
(`inline`, `none`, `default`, `other`); the module defining them
(mercurial/revlogutils/constants.py) is not among the sources.  Only the
identity of the tag used by the v1 codec matters to the claims; it is kept
abstract as a named small constant. -/
def COMP_MODE_INLINE : Nat := 2

/-- Modelled from the spec: the all-zero 20-byte null node of section 3
(mercurial/node.py is not among the sources). -/
def nullid : List Nat := List.replicate 20 0

/-- parsers.py `gettype`: `int(q & 0xFFFF)`. -/
def gettype (q : Nat) : Nat := q &&& 0xFFFF

/-- parsers.py `offset_type`: `int(int(offset) << 16 | type)`. -/
def offset_type (offset ty : Nat) : Nat := (offset <<< 16) ||| ty

/-- One index entry: the 12-tuple handled by parsers.py.  Fields 0 to 7 are
the v1 record (offset-and-flags word, compressed length, uncompressed length,
delta-base revision, link revision, the two parent revisions, node), fields
8 to 11 the v2 additions (sidedata offset and length, two compression
modes). -/
structure IndexEntry where
  offset_flags : Nat
  compressed_length : Int
  uncompressed_length : Int
  base_rev : Int
  link_rev : Int
  p1_rev : Int
  p2_rev : Int
  node : List Nat
  sidedata_offset : Nat
  sidedata_length : Int
  data_comp : Nat
  sidedata_comp : Nat
deriving DecidableEq

/-- The 64 packed bytes of a v1 record: `INDEX_ENTRY_V1.pack(*entry[:8])`.
Modelled from the spec for the layout (`>Qiiiiii20s12x`, section 3 of the
specification; constants.py is not among the sources). -/
def v1_record (e : IndexEntry) : List Nat :=
  toBytesBE 8 e.offset_flags ++
    (packI32 e.compressed_length ++
      (packI32 e.uncompressed_length ++
        (packI32 e.base_rev ++
          (packI32 e.link_rev ++
            (packI32 e.p1_rev ++
              (packI32 e.p2_rev ++
                (packFixed 20 e.node ++ List.replicate 12 0)))))))

/-- parsers.py `BaseIndexObject._pack_entry`: asserts that the sidedata
offset and length are zero, then packs the first eight fields. -/
def pack_entry_v1 (e : IndexEntry) : Option (List Nat) :=
  if e.sidedata_offset = 0 ∧ e.sidedata_length = 0 then some (v1_record e) else none

/-- parsers.py `BaseIndexObject._unpack_entry`: unpacks the v1 record and
extends it with `(0, 0, COMP_MODE_INLINE, COMP_MODE_INLINE)`. -/
def unpack_entry_v1 (bs : List Nat) : IndexEntry where
  offset_flags := fromBytesBE (bs.take 8)
  compressed_length := unpackI32 ((bs.drop 8).take 4)
  uncompressed_length := unpackI32 ((bs.drop 12).take 4)
  base_rev := unpackI32 ((bs.drop 16).take 4)
  link_rev := unpackI32 ((bs.drop 20).take 4)
  p1_rev := unpackI32 ((bs.drop 24).take 4)
  p2_rev := unpackI32 ((bs.drop 28).take 4)
  node := (bs.drop 32).take 20
  sidedata_offset := 0
  sidedata_length := 0
  data_comp := COMP_MODE_INLINE
  sidedata_comp := COMP_MODE_INLINE

/-- The trailing packed byte of a v2 record: the low 2 bits carry the data
compression mode, the next 2 bits the sidedata compression mode
(`data_comp | sidedata_comp` in `Index2Mixin._pack_entry`). -/
def v2_comp_byte (e : IndexEntry) : Nat :=
  (e.data_comp &&& 3) ||| ((e.sidedata_comp &&& 3) <<< 2)

/-- The 96 packed bytes of a v2 record: `Index2Mixin._pack_entry`.
Modelled from the spec for the layout (`>Qiiiiii20s12xQiB19x`, section 3 of
the specification; constants.py is not among the sources). -/
def v2_record (e : IndexEntry) : List Nat :=
  toBytesBE 8 e.offset_flags ++
    (packI32 e.compressed_length ++
      (packI32 e.uncompressed_length ++
        (packI32 e.base_rev ++
          (packI32 e.link_rev ++
            (packI32 e.p1_rev ++
              (packI32 e.p2_rev ++
                (packFixed 20 e.node ++
                  (List.replicate 12 0 ++
                    (toBytesBE 8 e.sidedata_offset ++
                      (packI32 e.sidedata_length ++
                        ([v2_comp_byte e] ++ List.replicate 19 0)))))))))))

/-- parsers.py `Index2Mixin._pack_entry` (total, no assertion). -/
def pack_entry_v2 (e : IndexEntry) : List Nat := v2_record e

/-- parsers.py `Index2Mixin._unpack_entry`: unpacks the v2 record, splitting
the trailing packed byte into the two compression modes. -/
def unpack_entry_v2 (bs : List Nat) : IndexEntry where
  offset_flags := fromBytesBE (bs.take 8)
  compressed_length := unpackI32 ((bs.drop 8).take 4)
  uncompressed_length := unpackI32 ((bs.drop 12).take 4)
  base_rev := unpackI32 ((bs.drop 16).take 4)
  link_rev := unpackI32 ((bs.drop 20).take 4)
  p1_rev := unpackI32 ((bs.drop 24).take 4)
  p2_rev := unpackI32 ((bs.drop 28).take 4)
  node := (bs.drop 32).take 20
  sidedata_offset := fromBytesBE ((bs.drop 64).take 8)
  sidedata_length := unpackI32 ((bs.drop 72).take 4)
  data_comp := (bs.drop 76).headD 0 &&& 3
  sidedata_comp := ((bs.drop 76).headD 0 &&& (3 <<< 2)) >>> 2

theorem comp_byte_bits (dc sc : Nat) (hd : dc < 4) (hs : sc < 4) :
    ((dc &&& 3) ||| ((sc &&& 3) <<< 2)) &&& 3 = dc ∧
    (((dc &&& 3) ||| ((sc &&& 3) <<< 2)) &&& 12) >>> 2 = sc ∧
    ((dc &&& 3) ||| ((sc &&& 3) <<< 2)) % 4 = dc ∧
    ((dc &&& 3) ||| ((sc &&& 3) <<< 2)) / 4 % 4 = sc := by
  interval_cases dc <;> interval_cases sc <;> decide

end Hg

namespace Hg

theorem v1_record_drops (e : IndexEntry) (hn : e.node.length = 20) :
    (v1_record e).take 8 = toBytesBE 8 e.offset_flags ∧
    ((v1_record e).drop 8).take 4 = packI32 e.compressed_length ∧
    ((v1_record e).drop 12).take 4 = packI32 e.uncompressed_length ∧
    ((v1_record e).drop 16).take 4 = packI32 e.base_rev ∧
    ((v1_record e).drop 20).take 4 = packI32 e.link_rev ∧
    ((v1_record e).drop 24).take 4 = packI32 e.p1_rev ∧
    ((v1_record e).drop 28).take 4 = packI32 e.p2_rev ∧
    ((v1_record e).drop 32).take 20 = e.node := by
  have hpf : (packFixed 20 e.node).length = 20 := packFixed_length_of_le _ _ (by omega)
  have h0 : (v1_record e).drop 0 = v1_record e := List.drop_zero _
  rw [v1_record] at h0
  have h8 := drop_chunk h0 (toBytesBE_length 8 e.offset_flags)
  have h12 := drop_chunk h8 (packI32_length e.compressed_length)
  have h16 := drop_chunk h12 (packI32_length e.uncompressed_length)
  have h20 := drop_chunk h16 (packI32_length e.base_rev)
  have h24 := drop_chunk h20 (packI32_length e.link_rev)
  have h28 := drop_chunk h24 (packI32_length e.p1_rev)
  have h32 := drop_chunk h28 (packI32_length e.p2_rev)
  norm_num at h8 h12 h16 h20 h24 h28 h32
  simp only [v1_record]
  refine ⟨?_, ?_, ?_, ?_, ?_, ?_, ?_, ?_⟩
  · exact take_append_len _ _ _ (toBytesBE_length 8 _)
  · rw [h8]
    exact take_append_len _ _ _ (packI32_length _)
  · rw [h12]
    exact take_append_len _ _ _ (packI32_length _)
  · rw [h16]
    exact take_append_len _ _ _ (packI32_length _)
  · rw [h20]
    exact take_append_len _ _ _ (packI32_length _)
  · rw [h24]
    exact take_append_len _ _ _ (packI32_length _)
  · rw [h28]
    exact take_append_len _ _ _ (packI32_length _)
  · rw [h32, take_append_len _ _ _ hpf]
    exact packFixed_of_length _ _ hn

end Hg

namespace Hg

theorem v2_record_drops (e : IndexEntry) (hn : e.node.length = 20) :
    (v2_record e).take 8 = toBytesBE 8 e.offset_flags ∧
    ((v2_record e).drop 8).take 4 = packI32 e.compressed_length ∧
    ((v2_record e).drop 12).take 4 = packI32 e.uncompressed_length ∧
    ((v2_record e).drop 16).take 4 = packI32 e.base_rev ∧
    ((v2_record e).drop 20).take 4 = packI32 e.link_rev ∧
    ((v2_record e).drop 24).take 4 = packI32 e.p1_rev ∧
    ((v2_record e).drop 28).take 4 = packI32 e.p2_rev ∧
    ((v2_record e).drop 32).take 20 = e.node ∧
    ((v2_record e).drop 64).take 8 = toBytesBE 8 e.sidedata_offset ∧
    ((v2_record e).drop 72).take 4 = packI32 e.sidedata_length ∧
    ((v2_record e).drop 76).headD 0 = v2_comp_byte e := by
  have hpf : (packFixed 20 e.node).length = 20 := packFixed_length_of_le _ _ (by omega)
  have hfull : v2_record e =
      toBytesBE 8 e.offset_flags ++
        (packI32 e.compressed_length ++
          (packI32 e.uncompressed_length ++
            (packI32 e.base_rev ++
              (packI32 e.link_rev ++
                (packI32 e.p1_rev ++
                  (packI32 e.p2_rev ++
                    (packFixed 20 e.node ++
                      (List.replicate 12 0 ++
                        (toBytesBE 8 e.sidedata_offset ++
                          (packI32 e.sidedata_length ++
                            ([v2_comp_byte e] ++ List.replicate 19 0))))))))))) := rfl
  have h0 : (v2_record e).drop 0 = v2_record e := List.drop_zero _
  nth_rewrite 2 [hfull] at h0
  have h8 := drop_chunk h0 (toBytesBE_length 8 e.offset_flags)
  have h12 := drop_chunk h8 (packI32_length e.compressed_length)
  have h16 := drop_chunk h12 (packI32_length e.uncompressed_length)
  have h20 := drop_chunk h16 (packI32_length e.base_rev)
  have h24 := drop_chunk h20 (packI32_length e.link_rev)
  have h28 := drop_chunk h24 (packI32_length e.p1_rev)
  have h32 := drop_chunk h28 (packI32_length e.p2_rev)
  have h52 := drop_chunk h32 hpf
  have h64 := drop_chunk h52 (List.length_replicate 12 0)
  have h72 := drop_chunk h64 (toBytesBE_length 8 e.sidedata_offset)
  have h76 := drop_chunk h72 (packI32_length e.sidedata_length)
  norm_num at h8 h12 h16 h20 h24 h28 h32 h52 h64 h72 h76
  refine ⟨?_, ?_, ?_, ?_, ?_, ?_, ?_, ?_, ?_, ?_, ?_⟩
  · rw [hfull]
    exact take_append_len _ _ _ (toBytesBE_length 8 _)
  · rw [h8]
    exact take_append_len _ _ _ (packI32_length _)
  · rw [h12]
    exact take_append_len _ _ _ (packI32_length _)
  · rw [h16]
    exact take_append_len _ _ _ (packI32_length _)
  · rw [h20]
    exact take_append_len _ _ _ (packI32_length _)
  · rw [h24]
    exact take_append_len _ _ _ (packI32_length _)
  · rw [h28]
    exact take_append_len _ _ _ (packI32_length _)
  · rw [h32, take_append_len _ _ _ hpf]
    exact packFixed_of_length _ _ hn
  · rw [h64]
    exact take_append_len _ _ _ (toBytesBE_length 8 _)
  · rw [h72]
    exact take_append_len _ _ _ (packI32_length _)
  · rw [h76]
    rfl

/-- Round trip of the v1 codec: unpacking a packed record restores the first
eight fields and forces the v1 defaults on the last four. -/
theorem unpack_entry_v1_v1_record (e : IndexEntry)
    (hof : e.offset_flags < 2 ^ 64)
    (hc1 : -(2 ^ 31) ≤ e.compressed_length) (hc2 : e.compressed_length < 2 ^ 31)
    (hu1 : -(2 ^ 31) ≤ e.uncompressed_length) (hu2 : e.uncompressed_length < 2 ^ 31)
    (hb1 : -(2 ^ 31) ≤ e.base_rev) (hb2 : e.base_rev < 2 ^ 31)
    (hl1 : -(2 ^ 31) ≤ e.link_rev) (hl2 : e.link_rev < 2 ^ 31)
    (hp1 : -(2 ^ 31) ≤ e.p1_rev) (hp2 : e.p1_rev < 2 ^ 31)
    (hq1 : -(2 ^ 31) ≤ e.p2_rev) (hq2 : e.p2_rev < 2 ^ 31)
    (hn : e.node.length = 20) :
    unpack_entry_v1 (v1_record e) =
      { e with sidedata_offset := 0, sidedata_length := 0,
               data_comp := COMP_MODE_INLINE, sidedata_comp := COMP_MODE_INLINE } := by
  obtain ⟨d0, d8, d12, d16, d20, d24, d28, d32⟩ := v1_record_drops e hn
  have hof64 : e.offset_flags < 2 ^ (8 * 8) := by
    have he : (2 : Nat) ^ (8 * 8) = 2 ^ 64 := by norm_num
    rw [he]
    exact hof
  cases e
  simp only [unpack_entry_v1, d0, d8, d12, d16, d20, d24, d28, d32]
  simp [IndexEntry.mk.injEq, fromBytesBE_toBytesBE 8 _ hof64,
    unpackI32_packI32 _ hc1 hc2, unpackI32_packI32 _ hu1 hu2, unpackI32_packI32 _ hb1 hb2,
    unpackI32_packI32 _ hl1 hl2, unpackI32_packI32 _ hp1 hp2, unpackI32_packI32 _ hq1 hq2]

/-- Round trip of the v2 codec: unpacking a packed record restores every
field when the two compression modes fit in their 2-bit slots. -/
theorem unpack_entry_v2_v2_record (e : IndexEntry)
    (hof : e.offset_flags < 2 ^ 64)
    (hc1 : -(2 ^ 31) ≤ e.compressed_length) (hc2 : e.compressed_length < 2 ^ 31)
    (hu1 : -(2 ^ 31) ≤ e.uncompressed_length) (hu2 : e.uncompressed_length < 2 ^ 31)
    (hb1 : -(2 ^ 31) ≤ e.base_rev) (hb2 : e.base_rev < 2 ^ 31)
    (hl1 : -(2 ^ 31) ≤ e.link_rev) (hl2 : e.link_rev < 2 ^ 31)
    (hp1 : -(2 ^ 31) ≤ e.p1_rev) (hp2 : e.p1_rev < 2 ^ 31)
    (hq1 : -(2 ^ 31) ≤ e.p2_rev) (hq2 : e.p2_rev < 2 ^ 31)
    (hn : e.node.length = 20)
    (hso : e.sidedata_offset < 2 ^ 64)
    (hs1 : -(2 ^ 31) ≤ e.sidedata_length) (hs2 : e.sidedata_length < 2 ^ 31)
    (hdc : e.data_comp < 4) (hsc : e.sidedata_comp < 4) :
    unpack_entry_v2 (v2_record e) = e := by
  obtain ⟨d0, d8, d12, d16, d20, d24, d28, d32, d64, d72, d76⟩ := v2_record_drops e hn
  have hof64 : e.offset_flags < 2 ^ (8 * 8) := by
    have he : (2 : Nat) ^ (8 * 8) = 2 ^ 64 := by norm_num
    rw [he]
    exact hof
  have hso64 : e.sidedata_offset < 2 ^ (8 * 8) := by
    have he : (2 : Nat) ^ (8 * 8) = 2 ^ 64 := by norm_num
    rw [he]
    exact hso
  obtain ⟨hbit1, hbit2, -, -⟩ := comp_byte_bits e.data_comp e.sidedata_comp hdc hsc
  cases e
  simp only [unpack_entry_v2, d0, d8, d12, d16, d20, d24, d28, d32, d64, d72, d76]
  simp [IndexEntry.mk.injEq, v2_comp_byte, fromBytesBE_toBytesBE 8 _ hof64,
    fromBytesBE_toBytesBE 8 _ hso64,
    unpackI32_packI32 _ hc1 hc2, unpackI32_packI32 _ hu1 hu2, unpackI32_packI32 _ hb1 hb2,
    unpackI32_packI32 _ hl1 hl2, unpackI32_packI32 _ hp1 hp2, unpackI32_packI32 _ hq1 hq2,
    unpackI32_packI32 _ hs1 hs2, hbit1, hbit2]

end Hg

namespace Hg

/-- C1: index entry encoding is the inverse of decoding.  For every v1 entry
whose sidedata offset and length are 0 (and whose compression modes are the
inline defaults, which is what decoding always produces), decoding the bytes
produced by encoding yields the original entry; for every v2 entry whose two
compression modes lie in 0..3, encoding packs the data mode into the low
2 bits and the sidedata mode into the next 2 bits of the trailing byte, and
decoding the encoded bytes yields the original entry. -/
theorem claim_C1_entry_codec_roundtrip (e₁ e₂ : IndexEntry)
    (h1of : e₁.offset_flags < 2 ^ 64)
    (h1c1 : -(2 ^ 31) ≤ e₁.compressed_length) (h1c2 : e₁.compressed_length < 2 ^ 31)
    (h1u1 : -(2 ^ 31) ≤ e₁.uncompressed_length) (h1u2 : e₁.uncompressed_length < 2 ^ 31)
    (h1b1 : -(2 ^ 31) ≤ e₁.base_rev) (h1b2 : e₁.base_rev < 2 ^ 31)
    (h1l1 : -(2 ^ 31) ≤ e₁.link_rev) (h1l2 : e₁.link_rev < 2 ^ 31)
    (h1p1 : -(2 ^ 31) ≤ e₁.p1_rev) (h1p2 : e₁.p1_rev < 2 ^ 31)
    (h1q1 : -(2 ^ 31) ≤ e₁.p2_rev) (h1q2 : e₁.p2_rev < 2 ^ 31)
    (h1n : e₁.node.length = 20)
    (h1so : e₁.sidedata_offset = 0) (h1sl : e₁.sidedata_length = 0)
    (h1dc : e₁.data_comp = COMP_MODE_INLINE) (h1sc : e₁.sidedata_comp = COMP_MODE_INLINE)
    (h2of : e₂.offset_flags < 2 ^ 64)
    (h2c1 : -(2 ^ 31) ≤ e₂.compressed_length) (h2c2 : e₂.compressed_length < 2 ^ 31)
    (h2u1 : -(2 ^ 31) ≤ e₂.uncompressed_length) (h2u2 : e₂.uncompressed_length < 2 ^ 31)
    (h2b1 : -(2 ^ 31) ≤ e₂.base_rev) (h2b2 : e₂.base_rev < 2 ^ 31)
    (h2l1 : -(2 ^ 31) ≤ e₂.link_rev) (h2l2 : e₂.link_rev < 2 ^ 31)
    (h2p1 : -(2 ^ 31) ≤ e₂.p1_rev) (h2p2 : e₂.p1_rev < 2 ^ 31)
    (h2q1 : -(2 ^ 31) ≤ e₂.p2_rev) (h2q2 : e₂.p2_rev < 2 ^ 31)
    (h2n : e₂.node.length = 20)
    (h2so : e₂.sidedata_offset < 2 ^ 64)
    (h2s1 : -(2 ^ 31) ≤ e₂.sidedata_length) (h2s2 : e₂.sidedata_length < 2 ^ 31)
    (h2dc : e₂.data_comp < 4) (h2sc : e₂.sidedata_comp < 4) :
    (pack_entry_v1 e₁ = some (v1_record e₁) ∧ unpack_entry_v1 (v1_record e₁) = e₁) ∧
    (unpack_entry_v2 (pack_entry_v2 e₂) = e₂ ∧
      ((pack_entry_v2 e₂).drop 76).headD 0 % 4 = e₂.data_comp ∧
      ((pack_entry_v2 e₂).drop 76).headD 0 / 4 % 4 = e₂.sidedata_comp) := by
  obtain ⟨-, -, hb3, hb4⟩ := comp_byte_bits e₂.data_comp e₂.sidedata_comp h2dc h2sc
  have d76 := (v2_record_drops e₂ h2n).2.2.2.2.2.2.2.2.2.2
  refine ⟨⟨?_, ?_⟩, ?_, ?_, ?_⟩
  · simp [pack_entry_v1, h1so, h1sl]
  · rw [unpack_entry_v1_v1_record e₁ h1of h1c1 h1c2 h1u1 h1u2 h1b1 h1b2 h1l1 h1l2 h1p1 h1p2
      h1q1 h1q2 h1n]
    cases e₁
    simp_all
  · exact unpack_entry_v2_v2_record e₂ h2of h2c1 h2c2 h2u1 h2u2 h2b1 h2b2 h2l1 h2l2 h2p1 h2p2
      h2q1 h2q2 h2n h2so h2s1 h2s2 h2dc h2sc
  · rw [pack_entry_v2, d76, v2_comp_byte]
    exact hb3
  · rw [pack_entry_v2, d76, v2_comp_byte]
    exact hb4

/-- A concrete v1 entry used to witness C1. -/
def c1_entry_v1 : IndexEntry :=
  ⟨65543, 10, 12, 0, 0, -1, -1, List.replicate 20 7, 0, 0, COMP_MODE_INLINE, COMP_MODE_INLINE⟩

/-- A concrete v2 entry used to witness C1. -/
def c1_entry_v2 : IndexEntry :=
  ⟨123456789, 11, -1, 2, 3, 1, -1, List.map (fun i => i + 1) (List.range 20), 999, 42, 1, 3⟩

/-- Witness for C1 at concrete entries. -/
theorem claim_C1_witness :
    (pack_entry_v1 c1_entry_v1 = some (v1_record c1_entry_v1) ∧
      unpack_entry_v1 (v1_record c1_entry_v1) = c1_entry_v1) ∧
    (unpack_entry_v2 (pack_entry_v2 c1_entry_v2) = c1_entry_v2 ∧
      ((pack_entry_v2 c1_entry_v2).drop 76).headD 0 % 4 = c1_entry_v2.data_comp ∧
      ((pack_entry_v2 c1_entry_v2).drop 76).headD 0 / 4 % 4 = c1_entry_v2.sidedata_comp) :=
  claim_C1_entry_codec_roundtrip c1_entry_v1 c1_entry_v2
    (by decide) (by decide) (by decide) (by decide) (by decide) (by decide) (by decide)
    (by decide) (by decide) (by decide) (by decide) (by decide) (by decide) (by decide)
    (by decide) (by decide) (by decide) (by decide) (by decide) (by decide) (by decide)
    (by decide) (by decide) (by decide) (by decide) (by decide) (by decide) (by decide)
    (by decide) (by decide) (by decide) (by decide) (by decide) (by decide) (by decide)
    (by decide) (by decide)

end Hg

namespace Hg

/-- Python slice index resolution for `l[i:j]`: negative indices count from
the end (clamped at 0), large indices are clamped to the length. -/
def pyIdx (n : Nat) (i : Int) : Nat :=
  if i < 0 then ((n : Int) + i).toNat else min i.toNat n

/-- Python byte-string slice `l[a:b]`. -/
def pySlice (l : List Nat) (a b : Int) : List Nat :=
  (l.take (pyIdx l.length b)).drop (pyIdx l.length a)

/-- Model of `struct.unpack(">i", data[start:start + 4])`: fails (model of
`struct.error`) unless the slice has exactly four bytes. -/
def readInt32At (data : List Nat) (start : Int) : Option Int :=
  if (pySlice data start (start + 4)).length = 4 then
    some (unpackI32 (pySlice data start (start + 4)))
  else none

/-- The per-entry advance of `InlinedIndexObject._inline_scan`: the
compressed length sits at `off + big_int_size` (8). -/
def scan_adv_v1 (data : List Nat) (off : Int) : Option Int :=
  readInt32At data (off + 8)

/-- The per-entry advance of `InlinedIndexObject2._inline_scan`: the data
size sits at `off + 8` and the sidedata size at `off + 72`
(`sidedata_length_pos`); the entry advances by their sum. -/
def scan_adv_v2 (data : List Nat) (off : Int) : Option Int :=
  match readInt32At data (off + 8), readInt32At data (off + 72) with
  | some d, some s => some (d + s)
  | _, _ => none

/-- Possible outcomes of the inline scan loop: offsets and count on success,
the corrupted-data `ValueError`, a `struct.error` on a short read, or fuel
exhaustion (the model marker for a loop that has not terminated within the
given number of iterations). -/
inductive ScanResult where
  | ok (offsets : List Int) (count : Nat)
  | corrupt
  | structError
  | fuelOut
deriving DecidableEq

/-- The loop of `_inline_scan`: starting from `off`, while
`off <= len(data) - entry_size` read the advance fields, record the offset
and move forward; at exit the walk must sit exactly at `len(data)`,
otherwise the data is corrupt. -/
def scanLoop (esize : Nat) (adv : List Nat → Int → Option Int) (data : List Nat) :
    Nat → Int → List Int → ScanResult
  | 0, _, _ => .fuelOut
  | fuel + 1, off, acc =>
    if off ≤ (data.length : Int) - (esize : Int) then
      match adv data off with
      | none => .structError
      | some s => scanLoop esize adv data fuel (off + (esize : Int) + s) (acc ++ [off])
    else if off = (data.length : Int) then .ok acc acc.length
    else .corrupt

/-- `InlinedIndexObject._inline_scan` on a byte string, entry size 64; the
fuel `data.length + 1` is enough for every strictly advancing walk. -/
def scan_inline_v1 (data : List Nat) : ScanResult :=
  scanLoop 64 scan_adv_v1 data (data.length + 1) 0 []

/-- `InlinedIndexObject2._inline_scan` on a byte string, entry size 96. -/
def scan_inline_v2 (data : List Nat) : ScanResult :=
  scanLoop 96 scan_adv_v2 data (data.length + 1) 0 []

/-- The walk described by the specification for `scan_inline`: start at
offset 0, repeatedly advance by the entry size plus the length fields of the
entry, record each start offset, and end exactly at the length of the
input.  (Definition written from the words of the spec, for comparison with
the embedded scan.) -/
inductive SpecInlineWalk (esize : Nat) (adv : List Nat → Int → Option Int) (data : List Nat) :
    Int → List Int → Prop
  | done (off : Int) :
      ¬ off ≤ (data.length : Int) - (esize : Int) →
      off = (data.length : Int) →
      SpecInlineWalk esize adv data off []
  | step (off s : Int) (offs : List Int) :
      off ≤ (data.length : Int) - (esize : Int) →
      adv data off = some s →
      SpecInlineWalk esize adv data (off + (esize : Int) + s) offs →
      SpecInlineWalk esize adv data off (off :: offs)

theorem scanLoop_spec (esize : Nat) (adv : List Nat → Int → Option Int) (data : List Nat) :
    ∀ (fuel : Nat) (off : Int) (acc : List Int),
      scanLoop esize adv data fuel off acc ≠ .fuelOut →
      scanLoop esize adv data fuel off acc ≠ .structError →
      (∃ offs, scanLoop esize adv data fuel off acc = .ok (acc ++ offs) (acc ++ offs).length ∧
        SpecInlineWalk esize adv data off offs) ∨
      (scanLoop esize adv data fuel off acc = .corrupt ∧
        ∀ offs, ¬ SpecInlineWalk esize adv data off offs) := by
  intro fuel
  induction fuel with
  | zero =>
      intro off acc h1 _
      exact absurd rfl h1
  | succ fuel ih =>
      intro off acc h1 h2
      by_cases hcond : off ≤ (data.length : Int) - (esize : Int)
      · cases hadv : adv data off with
        | none =>
            have : scanLoop esize adv data (fuel + 1) off acc = .structError := by
              simp [scanLoop, hcond, hadv]
            exact absurd this h2
        | some s =>
            have heq : scanLoop esize adv data (fuel + 1) off acc =
                scanLoop esize adv data fuel (off + (esize : Int) + s) (acc ++ [off]) := by
              simp [scanLoop, hcond, hadv]
            rw [heq] at h1 h2 ⊢
            rcases ih (off + (esize : Int) + s) (acc ++ [off]) h1 h2 with
              ⟨offs, hok, hw⟩ | ⟨hc, hnw⟩
            · left
              refine ⟨off :: offs, ?_, SpecInlineWalk.step off s offs hcond hadv hw⟩
              simpa [List.append_assoc] using hok
            · right
              refine ⟨hc, ?_⟩
              intro offs hw
              cases hw with
              | done _ hno _ => exact hno hcond
              | step _ s' offs' _ hadv' hw' =>
                  rw [hadv] at hadv'
                  cases hadv'
                  exact hnw offs' hw'
      · by_cases hend : off = (data.length : Int)
        · left
          refine ⟨[], ?_, SpecInlineWalk.done off hcond hend⟩
          simp only [scanLoop, List.append_nil]
          rw [if_neg hcond, if_pos hend]
        · right
          constructor
          · simp only [scanLoop]
            rw [if_neg hcond, if_neg hend]
          · intro offs hw
            cases hw with
            | done _ _ he => exact hend he
            | step _ s' offs' hc' _ _ => exact hcond hc'

end Hg

namespace Hg

/-- C2 (amended): whenever the inline scan terminates within one iteration
per input byte and never makes a short read (both guaranteed when the walk
strictly advances, in particular when every length field read is
non-negative), the scan starts at offset 0, advances by the fixed entry
size plus `compressed_length` (v1) or plus `compressed_length +
sidedata_length` (v2), records each entry start offset, returns the offsets
and the entry count when the walk ends exactly at the length of the input,
and fails with the corrupt-index error exactly when no such walk exists. -/
theorem claim_C2_inline_scan :
    (∀ data : List Nat,
      scan_inline_v1 data ≠ ScanResult.fuelOut →
      scan_inline_v1 data ≠ ScanResult.structError →
      (∃ offs, scan_inline_v1 data = ScanResult.ok offs offs.length ∧
        SpecInlineWalk 64 scan_adv_v1 data 0 offs) ∨
      (scan_inline_v1 data = ScanResult.corrupt ∧
        ∀ offs, ¬ SpecInlineWalk 64 scan_adv_v1 data 0 offs)) ∧
    (∀ data : List Nat,
      scan_inline_v2 data ≠ ScanResult.fuelOut →
      scan_inline_v2 data ≠ ScanResult.structError →
      (∃ offs, scan_inline_v2 data = ScanResult.ok offs offs.length ∧
        SpecInlineWalk 96 scan_adv_v2 data 0 offs) ∨
      (scan_inline_v2 data = ScanResult.corrupt ∧
        ∀ offs, ¬ SpecInlineWalk 96 scan_adv_v2 data 0 offs)) := by
  constructor
  · intro data h1 h2
    have := scanLoop_spec 64 scan_adv_v1 data (data.length + 1) 0 [] h1 h2
    simpa [scan_inline_v1] using this
  · intro data h1 h2
    have := scanLoop_spec 96 scan_adv_v2 data (data.length + 1) 0 [] h1 h2
    simpa [scan_inline_v2] using this

/-- Witness inputs for C2: one well-formed v1 entry of 64 zero bytes and one
well-formed v2 entry of 96 zero bytes (all length fields zero). -/
theorem claim_C2_witness :
    ((∃ offs, scan_inline_v1 (List.replicate 64 0) = ScanResult.ok offs offs.length ∧
        SpecInlineWalk 64 scan_adv_v1 (List.replicate 64 0) 0 offs) ∨
      (scan_inline_v1 (List.replicate 64 0) = ScanResult.corrupt ∧
        ∀ offs, ¬ SpecInlineWalk 64 scan_adv_v1 (List.replicate 64 0) 0 offs)) ∧
    ((∃ offs, scan_inline_v2 (List.replicate 96 0) = ScanResult.ok offs offs.length ∧
        SpecInlineWalk 96 scan_adv_v2 (List.replicate 96 0) 0 offs) ∨
      (scan_inline_v2 (List.replicate 96 0) = ScanResult.corrupt ∧
        ∀ offs, ¬ SpecInlineWalk 96 scan_adv_v2 (List.replicate 96 0) 0 offs)) :=
  ⟨claim_C2_inline_scan.1 (List.replicate 64 0) (by decide) (by decide),
   claim_C2_inline_scan.2 (List.replicate 96 0) (by decide) (by decide)⟩

/-- A 96-byte input whose v1 length fields are negative: the field of the
entry at offset 0 reads -32 and the field of the entry at offset 32 reads
-96, so the v1 walk cycles 0, 32, 0, 32, ... forever. -/
def c2_cycle_data : List Nat :=
  List.replicate 8 0 ++ [255, 255, 255, 224] ++ List.replicate 28 0 ++
    [255, 255, 255, 160] ++ List.replicate 52 0

theorem c2_cycle_step0 (fuel : Nat) (acc : List Int) :
    scanLoop 64 scan_adv_v1 c2_cycle_data (fuel + 1) 0 acc =
    scanLoop 64 scan_adv_v1 c2_cycle_data fuel 32 (acc ++ [0]) := rfl

theorem c2_cycle_step32 (fuel : Nat) (acc : List Int) :
    scanLoop 64 scan_adv_v1 c2_cycle_data (fuel + 1) 32 acc =
    scanLoop 64 scan_adv_v1 c2_cycle_data fuel 0 (acc ++ [32]) := rfl

/-- On the cycling input the scan runs out of any amount of fuel: the loop
never terminates, for every iteration bound. -/
theorem c2_cycle_diverges : ∀ (fuel : Nat) (acc : List Int),
    scanLoop 64 scan_adv_v1 c2_cycle_data fuel 0 acc = ScanResult.fuelOut ∧
    scanLoop 64 scan_adv_v1 c2_cycle_data fuel 32 acc = ScanResult.fuelOut := by
  intro fuel
  induction fuel with
  | zero => exact fun acc => ⟨rfl, rfl⟩
  | succ fuel ih =>
      intro acc
      exact ⟨(c2_cycle_step0 fuel acc).trans (ih (acc ++ [0])).2,
             (c2_cycle_step32 fuel acc).trans (ih (acc ++ [32])).1⟩

/-- C2 counterexample: on `c2_cycle_data` the v1 inline scan neither returns
offsets nor raises the corrupt-index error; it does not terminate (the
companion lemma shows fuel exhaustion for every iteration bound, here
instantiated at the canonical bound and at 1000). -/
theorem claim_C2_counterexample :
    scan_inline_v1 c2_cycle_data = ScanResult.fuelOut ∧
    scanLoop 64 scan_adv_v1 c2_cycle_data 1000 0 [] = ScanResult.fuelOut :=
  ⟨(c2_cycle_diverges (c2_cycle_data.length + 1) []).1, (c2_cycle_diverges 1000 []).1⟩

end Hg

namespace Hg

/-- Index flavour: v1 (64-byte records) or v2 (96-byte records). -/
inductive IdxKind where
  | v1
  | v2
deriving DecidableEq

/-- The state shared by the index classes of parsers.py: `_data` (the
on-disk bytes), `_lgt` (number of on-disk records), `_offsets` (the record
offsets of the inlined classes; `none` models the plain classes, whose
`_calculate_index` multiplies by the entry size) and `_extra` (the packed
records appended in memory). -/
structure HgIndex where
  kind : IdxKind
  data : List Nat
  lgt : Nat
  offsets : Option (List Nat)
  extra : List (List Nat)
deriving DecidableEq

/-- `entry_size`: the size of `index_format`. -/
def HgIndex.entrySize (idx : HgIndex) : Nat :=
  match idx.kind with
  | .v1 => 64
  | .v2 => 96

/-- `_unpack_entry` of the matching class. -/
def HgIndex.unpackE (idx : HgIndex) (bs : List Nat) : IndexEntry :=
  match idx.kind with
  | .v1 => unpack_entry_v1 bs
  | .v2 => unpack_entry_v2 bs

/-- `_pack_entry` of the matching class. -/
def HgIndex.packE (idx : HgIndex) (e : IndexEntry) : Option (List Nat) :=
  match idx.kind with
  | .v1 => pack_entry_v1 e
  | .v2 => some (pack_entry_v2 e)

/-- `BaseIndexObject.__len__`: `self._lgt + len(self._extra)`. -/
def HgIndex.length (idx : HgIndex) : Nat := idx.lgt + idx.extra.length

/-- `_calculate_index`: `i * self.entry_size` for the plain classes,
`self._offsets[i]` for the inlined classes. -/
def HgIndex.calculateIndex (idx : HgIndex) (i : Nat) : Nat :=
  match idx.offsets with
  | none => i * idx.entrySize
  | some offs => offs.getD i 0

/-- `BaseIndexObject.null_item`. -/
def null_item : IndexEntry :=
  ⟨0, 0, 0, -1, -1, -1, -1, nullid, 0, 0, COMP_MODE_INLINE, COMP_MODE_INLINE⟩

/-- The revision-0 masking of `BaseIndexObject.__getitem__`:
`(offset_type(0, gettype(r[0])),) + r[1:]`. -/
def maskRev0 (e : IndexEntry) : IndexEntry :=
  { e with offset_flags := offset_type 0 (gettype e.offset_flags) }

/-- The raw record bytes of revision `j`: `self._extra[j - self._lgt]` for
an in-memory revision, otherwise the slice of `_data` starting at
`_calculate_index(j)`. -/
def HgIndex.entryBytesAt (idx : HgIndex) (j : Nat) : List Nat :=
  if idx.lgt ≤ j then idx.extra.getD (j - idx.lgt) []
  else (idx.data.drop (idx.calculateIndex j)).take idx.entrySize

/-- `BaseIndexObject.__getitem__`; `none` models the `IndexError` raised by
`_check_index`. -/
def HgIndex.getItem (idx : HgIndex) (i : Int) : Option IndexEntry :=
  if i = -1 then some null_item
  else if i < 0 ∨ (idx.length : Int) ≤ i then none
  else
    let r := idx.unpackE (idx.entryBytesAt i.toNat)
    if idx.lgt ≠ 0 ∧ i.toNat = 0 then some (maskRev0 r) else some r

/-- The node of revision `r`: field 7 of `self[r]`. -/
def HgIndex.nodeOf (idx : HgIndex) (r : Nat) : List Nat :=
  match idx.getItem (r : Int) with
  | some e => e.node
  | none => []

/-- The lookup of `BaseIndexObject._nodemap`: the dictionary starts as
`{nullid: nullrev}` and receives `nodemap[node(r)] = r` for `r` ascending,
so a lookup returns the largest revision carrying the node, and `-1` for
the null node when no entry carries it.  This is `get_rev`. -/
def HgIndex.get_rev (idx : HgIndex) (n : List Nat) : Option Int :=
  match (List.range idx.length).reverse.find? (fun r => decide (idx.nodeOf r = n)) with
  | some r => some (r : Int)
  | none => if n = nullid then some (-1) else none

/-- `BaseIndexObject.has_node`. -/
def HgIndex.has_node (idx : HgIndex) (n : List Nat) : Bool :=
  (idx.get_rev n).isSome

/-- `BaseIndexObject.rev`; `none` models the `RevlogError` raised for an
unknown node. -/
def HgIndex.rev (idx : HgIndex) (n : List Nat) : Option Int :=
  idx.get_rev n

/-- `IndexObject.__init__`: asserts that the byte length is a multiple of
the entry size, sets `_lgt` and starts with no extra entries. -/
def IndexObject_init (data : List Nat) : Option HgIndex :=
  if data.length % 64 = 0 then some ⟨.v1, data, data.length / 64, none, []⟩ else none

/-- A Python slice object `start:stop:step` (each part optional). -/
structure PySliceArg where
  start : Option Int
  stop : Option Int
  step : Option Int
deriving DecidableEq

/-- The argument of `__delitem__`: a slice, or any non-slice value. -/
inductive DelArg where
  | slice (s : PySliceArg)
  | nonslice
deriving DecidableEq

/-- `IndexObject.__delitem__` and `InlinedIndexObject.__delitem__`; `none`
models the `ValueError` for an unsupported argument, the `TypeError` for a
missing start and the `IndexError` from `_check_index`.  The plain class
truncates `_data`, the inlined class truncates `_offsets`; `_stripnodes`
keeps the cached node map equal to the recomputation modelled by
`get_rev`. -/
def HgIndex.delitem (idx : HgIndex) (arg : DelArg) : Option HgIndex :=
  match arg with
  | .nonslice => none
  | .slice s =>
    if ¬ (s.stop = some (-1)) ∨ ¬ (s.step = none) then none
    else
      match s.start with
      | none => none
      | some i =>
        if i < 0 ∨ (idx.length : Int) ≤ i then none
        else
          if i.toNat < idx.lgt then
            match idx.offsets with
            | none => some { idx with data := idx.data.take (i.toNat * idx.entrySize),
                                      lgt := i.toNat, extra := [] }
            | some offs => some { idx with offsets := some (offs.take i.toNat),
                                           lgt := i.toNat, extra := [] }
          else some { idx with extra := idx.extra.take (i.toNat - idx.lgt) }

/-- `Index2Mixin.replace_sidedata_info`; `none` models the `KeyError` for a
negative revision or a revision already persisted on disk, and the
`IndexError` from `_check_index`. -/
def HgIndex.replace_sidedata_info (idx : HgIndex) (rev : Int)
    (sidedata_offset : Nat) (sidedata_length : Int) (offset_flags : Nat) : Option HgIndex :=
  if rev < 0 then none
  else if rev < 0 ∨ (idx.length : Int) ≤ rev then none
  else if rev < (idx.lgt : Int) then none
  else
    match idx.getItem rev with
    | none => none
    | some e =>
      match idx.packE { e with offset_flags := offset_flags,
                               sidedata_offset := sidedata_offset,
                               sidedata_length := sidedata_length } with
      | none => none
      | some bs => some { idx with extra := idx.extra.set (rev.toNat - idx.lgt) bs }

end Hg

namespace Hg

theorem HgIndex.getItem_of_lt (idx : HgIndex) (r : Nat) (h : r < idx.length) :
    idx.getItem (r : Int) =
      some (if idx.lgt ≠ 0 ∧ r = 0 then maskRev0 (idx.unpackE (idx.entryBytesAt r))
            else idx.unpackE (idx.entryBytesAt r)) := by
  unfold HgIndex.getItem
  have h1 : ¬((r : Int) = -1) := by omega
  have h2 : ¬((r : Int) < 0 ∨ (idx.length : Int) ≤ (r : Int)) := by
    push_neg
    constructor <;> omega
  rw [if_neg h1, if_neg h2]
  simp only [Int.toNat_natCast]
  by_cases hc : idx.lgt ≠ 0 ∧ r = 0 <;> simp [hc]

theorem HgIndex.nodeOf_eq (idx : HgIndex) (r : Nat) (h : r < idx.length) :
    idx.nodeOf r = (idx.unpackE (idx.entryBytesAt r)).node := by
  unfold HgIndex.nodeOf
  rw [HgIndex.getItem_of_lt idx r h]
  by_cases hc : idx.lgt ≠ 0 ∧ r = 0 <;> simp [hc, maskRev0]

theorem HgIndex.get_rev_eq_none (idx : HgIndex) (n : List Nat) (hn : n ≠ nullid)
    (h : ∀ r : Nat, r < idx.length → idx.nodeOf r ≠ n) :
    idx.get_rev n = none := by
  unfold HgIndex.get_rev
  have hf : (List.range idx.length).reverse.find? (fun r => decide (idx.nodeOf r = n)) = none := by
    rw [List.find?_eq_none]
    intro x hx
    simp only [List.mem_reverse, List.mem_range] at hx
    simp [h x hx]
  rw [hf]
  simp [hn]

theorem gettype_eq_mod (q : Nat) : gettype q = q % 2 ^ 16 := by
  unfold gettype
  have h := Nat.and_pow_two_sub_one_eq_mod q 16
  norm_num at h ⊢
  exact h

theorem offset_type_zero_gettype (q : Nat) : offset_type 0 (gettype q) = q % 2 ^ 16 := by
  unfold offset_type
  rw [Nat.zero_shiftLeft, Nat.zero_or]
  exact gettype_eq_mod q

end Hg

namespace Hg

/-- C3: for an index built from on-disk bytes with at least one entry, the
entry returned for revision 0 has the version-header bits masked out of
`offset_flags` (the byte-offset part reads as 0 and the low 16 flag bits
are preserved, i.e. the word is reduced modulo 2^16), and the entry
returned for every other revision is exactly the unpacked record. -/
theorem claim_C3_rev0_header_mask (data : List Nat) (n : Nat)
    (hlen : data.length = 64 * n) (hpos : 1 ≤ n) :
    ∃ idx, IndexObject_init data = some idx ∧ idx.length = n ∧
      (∃ e, idx.getItem 0 = some e ∧
        e = { unpack_entry_v1 (data.take 64) with
              offset_flags := (unpack_entry_v1 (data.take 64)).offset_flags % 2 ^ 16 } ∧
        e.offset_flags >>> 16 = 0 ∧
        gettype e.offset_flags = gettype (unpack_entry_v1 (data.take 64)).offset_flags) ∧
      (∀ i : Nat, 1 ≤ i → i < n →
        idx.getItem (i : Int) = some (unpack_entry_v1 ((data.drop (i * 64)).take 64))) := by
  refine ⟨⟨.v1, data, n, none, []⟩, ?_, ?_, ?_, ?_⟩
  · unfold IndexObject_init
    rw [hlen]
    rw [if_pos (by omega)]
    simp only [HgIndex.mk.injEq, Option.some.injEq, and_true, true_and]
    omega
  · simp [HgIndex.length]
  · have hl : (0 : Nat) < HgIndex.length ⟨.v1, data, n, none, []⟩ := by
      simp [HgIndex.length]
      omega
    have hg := HgIndex.getItem_of_lt ⟨.v1, data, n, none, []⟩ 0 hl
    have hcond : (⟨.v1, data, n, none, []⟩ : HgIndex).lgt ≠ 0 ∧ (0 : Nat) = 0 := ⟨by simpa using by omega, rfl⟩
    rw [if_pos hcond] at hg
    have hbytes : (⟨.v1, data, n, none, []⟩ : HgIndex).entryBytesAt 0 = data.take 64 := by
      unfold HgIndex.entryBytesAt HgIndex.calculateIndex HgIndex.entrySize
      simp only []
      rw [if_neg (by simpa using by omega)]
      simp
    refine ⟨_, by exact_mod_cast hg, ?_, ?_, ?_⟩
    · rw [hbytes]
      unfold maskRev0 HgIndex.unpackE
      simp only []
      rw [offset_type_zero_gettype]
    · rw [hbytes]
      unfold maskRev0 HgIndex.unpackE
      simp only []
      rw [offset_type_zero_gettype, Nat.shiftRight_eq_div_pow]
      exact Nat.div_eq_of_lt (Nat.mod_lt _ (by norm_num))
    · rw [hbytes]
      unfold maskRev0 HgIndex.unpackE
      simp only []
      rw [offset_type_zero_gettype, gettype_eq_mod, gettype_eq_mod, Nat.mod_mod_of_dvd]
      exact dvd_refl _
  · intro i h1 h2
    have hl : i < HgIndex.length ⟨.v1, data, n, none, []⟩ := by
      simp [HgIndex.length]
      omega
    have hg := HgIndex.getItem_of_lt ⟨.v1, data, n, none, []⟩ i hl
    rw [if_neg (by simp; omega)] at hg
    have hbytes : (⟨.v1, data, n, none, []⟩ : HgIndex).entryBytesAt i =
        (data.drop (i * 64)).take 64 := by
      unfold HgIndex.entryBytesAt HgIndex.calculateIndex HgIndex.entrySize
      simp only []
      rw [if_neg (by simpa using by omega)]
    rw [hbytes] at hg
    exact hg

end Hg

namespace Hg

/-- Concrete two-entry v1 index bytes for the C3 witness: revision 0 has a
non-trivial offset and flag word. -/
def c3_data : List Nat :=
  ([0, 0, 0, 0, 0, 1, 0, 2] ++ List.replicate 56 0) ++ ([5] ++ List.replicate 63 0)

/-- Witness for C3 at a concrete two-entry index. -/
theorem claim_C3_witness :
    ∃ idx, IndexObject_init c3_data = some idx ∧ idx.length = 2 ∧
      (∃ e, idx.getItem 0 = some e ∧
        e = { unpack_entry_v1 (c3_data.take 64) with
              offset_flags := (unpack_entry_v1 (c3_data.take 64)).offset_flags % 2 ^ 16 } ∧
        e.offset_flags >>> 16 = 0 ∧
        gettype e.offset_flags = gettype (unpack_entry_v1 (c3_data.take 64)).offset_flags) ∧
      (∀ i : Nat, 1 ≤ i → i < 2 →
        idx.getItem (i : Int) = some (unpack_entry_v1 ((c3_data.drop (i * 64)).take 64))) :=
  claim_C3_rev0_header_mask c3_data 2 (by norm_num [c3_data]) (by norm_num)

end Hg

namespace Hg

/-- C9: under invariant I4 (the null node is never the node of a stored
entry), looking up the all-zero null node yields revision -1 through
`get_rev`, `rev` and `has_node`; indexing the table with -1 returns the
synthetic null entry (zero offset word and lengths, base, link and both
parents -1, all-zero node); any other out-of-range integer index raises an
index error. -/
theorem claim_C9_null_node (idx : HgIndex)
    (hnonull : ∀ r : Nat, r < idx.length → idx.nodeOf r ≠ nullid) :
    idx.get_rev nullid = some (-1) ∧
    idx.rev nullid = some (-1) ∧
    idx.has_node nullid = true ∧
    (∀ r : Nat, r < idx.length → ∃ e, idx.getItem (r : Int) = some e ∧ e.node ≠ nullid) ∧
    idx.getItem (-1) = some null_item ∧
    null_item.offset_flags = 0 ∧ null_item.compressed_length = 0 ∧
    null_item.uncompressed_length = 0 ∧ null_item.base_rev = -1 ∧
    null_item.link_rev = -1 ∧ null_item.p1_rev = -1 ∧ null_item.p2_rev = -1 ∧
    null_item.node = nullid ∧
    (∀ i : Int, i ≠ -1 → (i < 0 ∨ (idx.length : Int) ≤ i) → idx.getItem i = none) := by
  have hf : (List.range idx.length).reverse.find? (fun r => decide (idx.nodeOf r = nullid)) =
      none := by
    rw [List.find?_eq_none]
    intro x hx
    simp only [List.mem_reverse, List.mem_range] at hx
    simp [hnonull x hx]
  have hrev : idx.get_rev nullid = some (-1) := by
    unfold HgIndex.get_rev
    rw [hf]
    simp
  refine ⟨hrev, hrev, by simp [HgIndex.has_node, hrev], ?_, ?_, rfl, rfl, rfl, rfl, rfl, rfl,
    rfl, rfl, ?_⟩
  · intro r hr
    have hg := HgIndex.getItem_of_lt idx r hr
    have hn := HgIndex.nodeOf_eq idx r hr
    by_cases hc : idx.lgt ≠ 0 ∧ r = 0
    · rw [if_pos hc] at hg
      refine ⟨_, hg, ?_⟩
      have : (maskRev0 (idx.unpackE (idx.entryBytesAt r))).node =
          (idx.unpackE (idx.entryBytesAt r)).node := by
        simp [maskRev0]
      rw [this, ← hn]
      exact hnonull r hr
    · rw [if_neg hc] at hg
      refine ⟨_, hg, ?_⟩
      rw [← hn]
      exact hnonull r hr
  · unfold HgIndex.getItem
    rw [if_pos rfl]
  · intro i h1 h2
    unfold HgIndex.getItem
    rw [if_neg h1, if_pos h2]

/-- A concrete two-entry v1 index whose nodes are distinct and non-null,
used as witness input. -/
def sample_index : HgIndex :=
  ⟨.v1, (List.replicate 32 0 ++ ([1] ++ List.replicate 31 0)) ++
        (List.replicate 32 0 ++ ([2] ++ List.replicate 31 0)), 2, none, []⟩

set_option maxRecDepth 8192 in
/-- Witness for C9 at a concrete index. -/
theorem claim_C9_witness :
    sample_index.get_rev nullid = some (-1) ∧
    sample_index.rev nullid = some (-1) ∧
    sample_index.has_node nullid = true ∧
    (∀ r : Nat, r < sample_index.length →
      ∃ e, sample_index.getItem (r : Int) = some e ∧ e.node ≠ nullid) ∧
    sample_index.getItem (-1) = some null_item ∧
    null_item.offset_flags = 0 ∧ null_item.compressed_length = 0 ∧
    null_item.uncompressed_length = 0 ∧ null_item.base_rev = -1 ∧
    null_item.link_rev = -1 ∧ null_item.p1_rev = -1 ∧ null_item.p2_rev = -1 ∧
    null_item.node = nullid ∧
    (∀ i : Int, i ≠ -1 → (i < 0 ∨ (sample_index.length : Int) ≤ i) →
      sample_index.getItem i = none) :=
  claim_C9_null_node sample_index (by decide)

end Hg

namespace Hg

theorem getD_take_of_lt {α : Type} (l : List α) (n m : Nat) (d : α) (h : m < n) :
    (l.take n).getD m d = l.getD m d := by
  simp [List.getD_eq_getElem?_getD, List.getElem?_take, h]

theorem getD_set_ne {α : Type} (l : List α) (k m : Nat) (b : α) (d : α) (h : k ≠ m) :
    (l.set k b).getD m d = l.getD m d := by
  simp [List.getD_eq_getElem?_getD, List.getElem?_set_ne h]

theorem getD_set_self {α : Type} (l : List α) (k : Nat) (b : α) (d : α) (h : k < l.length) :
    (l.set k b).getD k d = b := by
  simp [List.getD_eq_getElem?_getD, List.getElem?_set_self h]

theorem HgIndex.entrySize_pos (idx : HgIndex) : 0 < idx.entrySize := by
  unfold HgIndex.entrySize
  cases idx.kind <;> norm_num

/-- After a strip that keeps revisions below `i` intact, every stripped node
stops resolving through `has_node`, `get_rev` and `rev`. -/
theorem strip_resolution (idx idx' : HgIndex) (i : Nat)
    (hlen' : idx'.length = i)
    (hpres : ∀ r : Nat, r < i → idx'.nodeOf r = idx.nodeOf r)
    (hdist : ∀ r : Nat, r < idx.length → ∀ s : Nat, s < idx.length → r ≠ s →
      idx.nodeOf r ≠ idx.nodeOf s)
    (hnonull : ∀ r : Nat, r < idx.length → idx.nodeOf r ≠ nullid) :
    ∀ j : Nat, i ≤ j → j < idx.length →
      idx'.has_node (idx.nodeOf j) = false ∧
      idx'.get_rev (idx.nodeOf j) = none ∧
      idx'.rev (idx.nodeOf j) = none := by
  intro j hj1 hj2
  have hnone : idx'.get_rev (idx.nodeOf j) = none := by
    apply HgIndex.get_rev_eq_none _ _ (hnonull j hj2)
    intro r hr
    rw [hlen'] at hr
    rw [hpres r hr]
    exact hdist r (by omega) j hj2 (by omega)
  exact ⟨by simp [HgIndex.has_node, hnone], hnone, hnone⟩

end Hg

namespace Hg

/-- Truncating `_data` in `IndexObject.__delitem__` preserves the bytes, and
hence the node, of every remaining revision. -/
theorem nodeOf_truncate_data (idx : HgIndex) (i : Nat) (hoffs : idx.offsets = none)
    (hbr : i ≤ idx.lgt) (r : Nat) (hr : r < i) :
    ({ idx with data := idx.data.take (i * idx.entrySize), lgt := i,
                extra := [] } : HgIndex).nodeOf r = idx.nodeOf r := by
  obtain ⟨k, d, lg, off, ex⟩ := idx
  have hoff : off = none := hoffs
  subst hoff
  simp only at hbr
  cases k <;>
  · rw [HgIndex.nodeOf_eq _ r (by simp [HgIndex.length]; omega),
      HgIndex.nodeOf_eq _ r (by simp [HgIndex.length]; omega)]
    simp only [HgIndex.unpackE, HgIndex.entryBytesAt, HgIndex.calculateIndex,
      HgIndex.entrySize]
    rw [if_neg (by omega), if_neg (by omega)]
    rw [List.drop_take, List.take_take, inf_eq_left.mpr (by omega)]

/-- Truncating `_offsets` in `InlinedIndexObject.__delitem__` preserves the
bytes, and hence the node, of every remaining revision. -/
theorem nodeOf_truncate_offsets (idx : HgIndex) (i : Nat) (offs : List Nat)
    (hoffs : idx.offsets = some offs) (hbr : i ≤ idx.lgt) (r : Nat) (hr : r < i) :
    ({ idx with offsets := some (offs.take i), lgt := i,
                extra := [] } : HgIndex).nodeOf r = idx.nodeOf r := by
  obtain ⟨k, d, lg, off, ex⟩ := idx
  have hoff : off = some offs := hoffs
  subst hoff
  simp only at hbr
  cases k <;>
  · rw [HgIndex.nodeOf_eq _ r (by simp [HgIndex.length]; omega),
      HgIndex.nodeOf_eq _ r (by simp [HgIndex.length]; omega)]
    simp only [HgIndex.unpackE, HgIndex.entryBytesAt, HgIndex.calculateIndex,
      HgIndex.entrySize]
    rw [if_neg (by simp; omega), if_neg (by simp; omega)]
    rw [getD_take_of_lt _ _ _ _ hr]

/-- Truncating `_extra` in `__delitem__` preserves the bytes, and hence the
node, of every remaining revision. -/
theorem nodeOf_truncate_extra (idx : HgIndex) (i : Nat) (hbr : idx.lgt ≤ i)
    (hle : i ≤ idx.length) (r : Nat) (hr : r < i) :
    ({ idx with extra := idx.extra.take (i - idx.lgt) } : HgIndex).nodeOf r =
      idx.nodeOf r := by
  obtain ⟨k, d, lg, off, ex⟩ := idx
  simp only at hbr
  simp only [HgIndex.length] at hle
  cases k <;>
  · rw [HgIndex.nodeOf_eq _ r (by simp [HgIndex.length]; omega),
      HgIndex.nodeOf_eq _ r (by simp [HgIndex.length]; omega)]
    simp only [HgIndex.unpackE, HgIndex.entryBytesAt, HgIndex.calculateIndex,
      HgIndex.entrySize]
    by_cases hc : lg ≤ r
    · rw [if_pos hc, if_pos hc, getD_take_of_lt _ _ _ _ (by omega)]
    · rw [if_neg hc, if_neg hc]

end Hg

namespace Hg

theorem delitem_at (idx : HgIndex) (i : Nat) (hi : i < idx.length) :
    idx.delitem (DelArg.slice ⟨some (i : Int), some (-1), none⟩) =
      (if i < idx.lgt then
        match idx.offsets with
        | none => some { idx with data := idx.data.take (i * idx.entrySize),
                                  lgt := i, extra := [] }
        | some offs => some { idx with offsets := some (offs.take i),
                                       lgt := i, extra := [] }
      else some { idx with extra := idx.extra.take (i - idx.lgt) }) := by
  have h2 : ¬((i : Int) < 0 ∨ (idx.length : Int) ≤ (i : Int)) := by
    push_neg
    constructor <;> omega
  simp only [HgIndex.delitem]
  rw [if_neg (by simp)]
  rw [if_neg h2]
  simp only [Int.toNat_natCast]

/-- C8: deleting the slice `[i:-1]` from an index of length N removes all
entries for revisions at or above `i`: the resulting length is `i` and the
node of each removed revision no longer resolves through `has_node`,
`get_rev` or `rev` (assuming the data-model invariants that nodes are
unique and non-null); deleting any slice not of the form `a:-1` with unit
step, or a non-slice argument, is rejected with an error. -/
theorem claim_C8_strip (idx : HgIndex) (i : Nat) (hi : i < idx.length)
    (hdist : ∀ r : Nat, r < idx.length → ∀ s : Nat, s < idx.length → r ≠ s →
      idx.nodeOf r ≠ idx.nodeOf s)
    (hnonull : ∀ r : Nat, r < idx.length → idx.nodeOf r ≠ nullid) :
    (∃ idx', idx.delitem (DelArg.slice ⟨some (i : Int), some (-1), none⟩) = some idx' ∧
      idx'.length = i ∧
      ∀ j : Nat, i ≤ j → j < idx.length →
        idx'.has_node (idx.nodeOf j) = false ∧
        idx'.get_rev (idx.nodeOf j) = none ∧
        idx'.rev (idx.nodeOf j) = none) ∧
    (∀ s : PySliceArg, s.stop ≠ some (-1) ∨ (s.step ≠ none ∧ s.step ≠ some 1) →
      idx.delitem (DelArg.slice s) = none) ∧
    idx.delitem DelArg.nonslice = none := by
  refine ⟨?_, ?_, rfl⟩
  · by_cases hbr : i < idx.lgt
    · cases hoffs : idx.offsets with
      | none =>
          have hlen' : ({ idx with data := idx.data.take (i * idx.entrySize), lgt := i,
                                   extra := [] } : HgIndex).length = i := by
            simp [HgIndex.length]
          refine ⟨_, ?_, hlen', ?_⟩
          · rw [delitem_at idx i hi, if_pos hbr, hoffs]
          · exact strip_resolution idx _ i hlen'
              (fun r hr => nodeOf_truncate_data idx i hoffs (by omega) r hr) hdist hnonull
      | some offs =>
          have hlen' : ({ idx with offsets := some (offs.take i), lgt := i,
                                   extra := [] } : HgIndex).length = i := by
            simp [HgIndex.length]
          refine ⟨_, ?_, hlen', ?_⟩
          · rw [delitem_at idx i hi, if_pos hbr, hoffs]
          · exact strip_resolution idx _ i hlen'
              (fun r hr => nodeOf_truncate_offsets idx i offs hoffs (by omega) r hr)
              hdist hnonull
    · have hbr' : idx.lgt ≤ i := by omega
      have hle : i ≤ idx.length := by omega
      have hlen' : ({ idx with extra := idx.extra.take (i - idx.lgt) } : HgIndex).length
          = i := by
        unfold HgIndex.length at hle ⊢
        simp only [List.length_take]
        omega
      refine ⟨_, ?_, hlen', ?_⟩
      · rw [delitem_at idx i hi, if_neg hbr]
      · exact strip_resolution idx _ i hlen'
          (fun r hr => nodeOf_truncate_extra idx i hbr' hle r hr) hdist hnonull
  · intro s hs
    have hcond : ¬(s.stop = some (-1)) ∨ ¬(s.step = none) := by
      rcases hs with h | ⟨h1, _⟩
      · exact Or.inl h
      · exact Or.inr h1
    simp only [HgIndex.delitem]
    rw [if_pos hcond]

set_option maxRecDepth 8192 in
/-- Witness for C8 at a concrete two-entry index, stripping from revision 1. -/
theorem claim_C8_witness :
    (∃ idx', sample_index.delitem (DelArg.slice ⟨some (1 : Int), some (-1), none⟩) =
        some idx' ∧
      idx'.length = 1 ∧
      ∀ j : Nat, 1 ≤ j → j < sample_index.length →
        idx'.has_node (sample_index.nodeOf j) = false ∧
        idx'.get_rev (sample_index.nodeOf j) = none ∧
        idx'.rev (sample_index.nodeOf j) = none) ∧
    (∀ s : PySliceArg, s.stop ≠ some (-1) ∨ (s.step ≠ none ∧ s.step ≠ some 1) →
      sample_index.delitem (DelArg.slice s) = none) ∧
    sample_index.delitem DelArg.nonslice = none :=
  claim_C8_strip sample_index 1 (by decide) (by decide) (by decide)

end Hg

namespace Hg

theorem getD_mem_of_lt {α : Type} (l : List α) (n : Nat) (d : α) (h : n < l.length) :
    l.getD n d ∈ l := by
  have he : l.getD n d = l[n] := by
    simp [List.getD_eq_getElem?_getD, List.getElem?_eq_getElem h]
  rw [he]
  exact List.getElem_mem h

theorem unpackI32_range (l : List Nat) (hlen : l.length ≤ 4) (hb : ∀ b ∈ l, b < 256) :
    -(2 ^ 31) ≤ unpackI32 l ∧ unpackI32 l < 2 ^ 31 := by
  have h1 : fromBytesBE l < 2 ^ (8 * l.length) := fromBytesBE_lt l hb
  have h2 : (2 : Nat) ^ (8 * l.length) ≤ 2 ^ 32 := Nat.pow_le_pow_right (by norm_num) (by omega)
  unfold unpackI32
  split <;> constructor <;> omega

/-- Every entry decoded from a well-formed 96-byte v2 record lies in the
ranges the packer can encode exactly. -/
theorem unpack_entry_v2_wf (bs : List Nat) (hlen : bs.length = 96)
    (hb : ∀ b ∈ bs, b < 256) :
    (unpack_entry_v2 bs).offset_flags < 2 ^ 64 ∧
    (-(2 ^ 31) ≤ (unpack_entry_v2 bs).compressed_length ∧
      (unpack_entry_v2 bs).compressed_length < 2 ^ 31) ∧
    (-(2 ^ 31) ≤ (unpack_entry_v2 bs).uncompressed_length ∧
      (unpack_entry_v2 bs).uncompressed_length < 2 ^ 31) ∧
    (-(2 ^ 31) ≤ (unpack_entry_v2 bs).base_rev ∧ (unpack_entry_v2 bs).base_rev < 2 ^ 31) ∧
    (-(2 ^ 31) ≤ (unpack_entry_v2 bs).link_rev ∧ (unpack_entry_v2 bs).link_rev < 2 ^ 31) ∧
    (-(2 ^ 31) ≤ (unpack_entry_v2 bs).p1_rev ∧ (unpack_entry_v2 bs).p1_rev < 2 ^ 31) ∧
    (-(2 ^ 31) ≤ (unpack_entry_v2 bs).p2_rev ∧ (unpack_entry_v2 bs).p2_rev < 2 ^ 31) ∧
    (unpack_entry_v2 bs).node.length = 20 ∧
    (unpack_entry_v2 bs).sidedata_offset < 2 ^ 64 ∧
    (-(2 ^ 31) ≤ (unpack_entry_v2 bs).sidedata_length ∧
      (unpack_entry_v2 bs).sidedata_length < 2 ^ 31) ∧
    (unpack_entry_v2 bs).data_comp < 4 ∧
    (unpack_entry_v2 bs).sidedata_comp < 4 := by
  have htake : ∀ (m k : Nat), ∀ b ∈ (bs.drop m).take k, b < 256 := by
    intro m k b hbm
    exact hb b (List.mem_of_mem_drop (List.mem_of_mem_take hbm))
  have htake0 : ∀ b ∈ bs.take 8, b < 256 := fun b hbm => hb b (List.mem_of_mem_take hbm)
  have hof : fromBytesBE (bs.take 8) < 2 ^ 64 := by
    have h1 := fromBytesBE_lt (bs.take 8) htake0
    have h2 : (bs.take 8).length = 8 := by
      simp [hlen]
    rw [h2] at h1
    norm_num at h1
    norm_num
    exact h1
  have hso : fromBytesBE ((bs.drop 64).take 8) < 2 ^ 64 := by
    have h1 := fromBytesBE_lt ((bs.drop 64).take 8) (htake 64 8)
    have h2 : ((bs.drop 64).take 8).length = 8 := by
      simp [hlen]
    rw [h2] at h1
    norm_num at h1
    norm_num
    exact h1
  have hi32 : ∀ m : Nat, -(2 ^ 31) ≤ unpackI32 ((bs.drop m).take 4) ∧
      unpackI32 ((bs.drop m).take 4) < 2 ^ 31 := by
    intro m
    exact unpackI32_range _ (by simp) (htake m 4)
  have hnode : ((bs.drop 32).take 20).length = 20 := by
    simp [hlen]
  have hdc : (bs.drop 76).headD 0 &&& 3 < 4 := by
    have h3 : (bs.drop 76).headD 0 &&& 3 ≤ 3 := Nat.and_le_right
    omega
  have hsc : ((bs.drop 76).headD 0 &&& 12) >>> 2 < 4 := by
    have h1 : (bs.drop 76).headD 0 &&& 12 ≤ 12 := Nat.and_le_right
    rw [Nat.shiftRight_eq_div_pow]
    omega
  exact ⟨hof, hi32 8, hi32 12, hi32 16, hi32 20, hi32 24, hi32 28, hnode, hso, hi32 72,
    hdc, hsc⟩

end Hg

namespace Hg

theorem set_extra_length (idx : HgIndex) (k : Nat) (bs' : List Nat) :
    ({ idx with extra := idx.extra.set k bs' } : HgIndex).length = idx.length := by
  simp [HgIndex.length, List.length_set]

theorem set_extra_getItem_ne (idx : HgIndex) (k : Nat) (bs' : List Nat) (j : Int)
    (hne : j ≠ ((idx.lgt + k : Nat) : Int)) :
    ({ idx with extra := idx.extra.set k bs' } : HgIndex).getItem j = idx.getItem j := by
  obtain ⟨ki, d, lg, off, ex⟩ := idx
  simp only at hne
  unfold HgIndex.getItem
  by_cases h1 : j = -1
  · rw [if_pos h1, if_pos h1]
  · rw [if_neg h1, if_neg h1]
    have hlen : (HgIndex.mk ki d lg off (ex.set k bs')).length =
        (HgIndex.mk ki d lg off ex).length := by
      simp [HgIndex.length, List.length_set]
    by_cases h2 : j < 0 ∨ ((HgIndex.mk ki d lg off ex).length : Int) ≤ j
    · rw [if_pos (by rw [hlen]; exact h2), if_pos h2]
    · rw [if_neg (by rw [hlen]; exact h2), if_neg h2]
      push_neg at h2
      have hb : (HgIndex.mk ki d lg off (ex.set k bs')).entryBytesAt j.toNat =
          (HgIndex.mk ki d lg off ex).entryBytesAt j.toNat := by
        unfold HgIndex.entryBytesAt HgIndex.calculateIndex
        simp only [HgIndex.entrySize]
        by_cases hc : lg ≤ j.toNat
        · rw [if_pos hc, if_pos hc]
          exact getD_set_ne _ _ _ _ _ (by omega)
        · rw [if_neg hc, if_neg hc]
      rw [hb]
      simp only [HgIndex.unpackE]

theorem set_extra_getItem_self (idx : HgIndex) (k : Nat) (bs' : List Nat)
    (hk : k < idx.extra.length) :
    ({ idx with extra := idx.extra.set k bs' } : HgIndex).getItem ((idx.lgt + k : Nat) : Int) =
      (if idx.lgt ≠ 0 ∧ idx.lgt + k = 0 then some (maskRev0 (idx.unpackE bs'))
       else some (idx.unpackE bs')) := by
  obtain ⟨ki, d, lg, off, ex⟩ := idx
  simp only at hk ⊢
  rw [HgIndex.getItem_of_lt _ (lg + k) (by simp [HgIndex.length, List.length_set]; omega)]
  have hb : (HgIndex.mk ki d lg off (ex.set k bs')).entryBytesAt (lg + k) = bs' := by
    unfold HgIndex.entryBytesAt
    rw [if_pos (by simp)]
    simp only
    rw [show lg + k - lg = k by omega]
    exact getD_set_self _ _ _ _ (by simpa using hk)
  rw [hb]
  simp only [HgIndex.unpackE]
  by_cases hc : lg ≠ 0 ∧ lg + k = 0
  · rw [if_pos (by simpa using hc), if_pos hc]
  · rw [if_neg (by simpa using hc), if_neg hc]

/-- C10: on a v2 index, `replace_sidedata_info(rev, so, sl, of)` raises
`KeyError` when `rev` is negative or refers to an entry already persisted on
disk, and otherwise rewrites only the `offset_flags`, `sidedata_offset` and
`sidedata_length` fields of the entry appended in memory during the current
transaction, leaving the other fields of that entry and all other entries
unchanged. -/
theorem claim_C10_replace_sidedata (idx : HgIndex) (hkind : idx.kind = IdxKind.v2)
    (hwf : ∀ bs ∈ idx.extra, bs.length = 96 ∧ ∀ b ∈ bs, b < 256)
    (r : Nat) (hr1 : idx.lgt ≤ r) (hr2 : r < idx.length)
    (so : Nat) (sl : Int) (of : Nat)
    (hso : so < 2 ^ 64) (hsl1 : -(2 ^ 31) ≤ sl) (hsl2 : sl < 2 ^ 31) (hof : of < 2 ^ 64) :
    (∃ idx' e, idx.replace_sidedata_info (r : Int) so sl of = some idx' ∧
      idx.getItem (r : Int) = some e ∧
      idx'.getItem (r : Int) = some { e with offset_flags := of, sidedata_offset := so,
                                             sidedata_length := sl } ∧
      idx'.length = idx.length ∧
      ∀ j : Int, j ≠ (r : Int) → idx'.getItem j = idx.getItem j) ∧
    (∀ i : Int, i < 0 → idx.replace_sidedata_info i so sl of = none) ∧
    (∀ p : Nat, p < idx.lgt → idx.replace_sidedata_info (p : Int) so sl of = none) := by
  have hk : r - idx.lgt < idx.extra.length := by
    unfold HgIndex.length at hr2
    omega
  have hmem : idx.extra.getD (r - idx.lgt) [] ∈ idx.extra := getD_mem_of_lt _ _ _ hk
  obtain ⟨hlen96, hbytes⟩ := hwf _ hmem
  have hmask : ¬(idx.lgt ≠ 0 ∧ r = 0) := by omega
  have hbsAt : idx.entryBytesAt r = idx.extra.getD (r - idx.lgt) [] := by
    unfold HgIndex.entryBytesAt
    rw [if_pos hr1]
  have hget : idx.getItem (r : Int) = some (unpack_entry_v2 (idx.extra.getD (r - idx.lgt) [])) := by
    rw [HgIndex.getItem_of_lt idx r hr2, if_neg hmask, hbsAt]
    unfold HgIndex.unpackE
    rw [hkind]
  obtain ⟨w1, ⟨w2a, w2b⟩, ⟨w3a, w3b⟩, ⟨w4a, w4b⟩, ⟨w5a, w5b⟩, ⟨w6a, w6b⟩, ⟨w7a, w7b⟩,
    w8, w9, ⟨w10a, w10b⟩, w11, w12⟩ :=
    unpack_entry_v2_wf (idx.extra.getD (r - idx.lgt) []) hlen96 hbytes
  have hrt : unpack_entry_v2 (v2_record
      { unpack_entry_v2 (idx.extra.getD (r - idx.lgt) []) with
        offset_flags := of, sidedata_offset := so, sidedata_length := sl }) =
      { unpack_entry_v2 (idx.extra.getD (r - idx.lgt) []) with
        offset_flags := of, sidedata_offset := so, sidedata_length := sl } := by
    exact unpack_entry_v2_v2_record _ hof w2a w2b w3a w3b w4a w4b w5a w5b w6a w6b w7a w7b
      w8 hso hsl1 hsl2 w11 w12
  have hred : idx.replace_sidedata_info (r : Int) so sl of =
      some { idx with extra := idx.extra.set (r - idx.lgt) (v2_record
        { unpack_entry_v2 (idx.extra.getD (r - idx.lgt) []) with
          offset_flags := of, sidedata_offset := so, sidedata_length := sl }) } := by
    unfold HgIndex.replace_sidedata_info
    rw [if_neg (by omega), if_neg (by push_neg; constructor <;> omega), if_neg (by omega)]
    rw [hget]
    unfold HgIndex.packE
    rw [hkind]
    simp only [Int.toNat_natCast]
    simp [pack_entry_v2, hkind]
  refine ⟨⟨_, _, hred, hget, ?_, ?_, ?_⟩, ?_, ?_⟩
  · -- the rewritten entry reads back with exactly the three fields changed
    have hself := set_extra_getItem_self idx (r - idx.lgt) (v2_record
      { unpack_entry_v2 (idx.extra.getD (r - idx.lgt) []) with
        offset_flags := of, sidedata_offset := so, sidedata_length := sl }) hk
    rw [show idx.lgt + (r - idx.lgt) = r by omega] at hself
    rw [hself, if_neg (by omega)]
    have hup : idx.unpackE (v2_record
        { unpack_entry_v2 (idx.extra.getD (r - idx.lgt) []) with
          offset_flags := of, sidedata_offset := so, sidedata_length := sl }) =
        unpack_entry_v2 (v2_record
        { unpack_entry_v2 (idx.extra.getD (r - idx.lgt) []) with
          offset_flags := of, sidedata_offset := so, sidedata_length := sl }) := by
      unfold HgIndex.unpackE
      rw [hkind]
    rw [hup, hrt]
  · exact set_extra_length idx _ _
  · intro j hj
    exact set_extra_getItem_ne idx (r - idx.lgt) _ j
      (by rw [show idx.lgt + (r - idx.lgt) = r by omega]; exact hj)
  · intro i hi
    unfold HgIndex.replace_sidedata_info
    rw [if_pos hi]
  · intro p hp
    unfold HgIndex.replace_sidedata_info
    rw [if_neg (by omega)]
    rw [if_neg (by push_neg; constructor <;> omega)]
    rw [if_pos (by omega)]

end Hg

namespace Hg

/-- A concrete v2 entry appended in memory for the C10 witness. -/
def c10_entry : IndexEntry := ⟨7, 5, 6, 0, 0, -1, -1, List.replicate 20 9, 0, 0, 2, 2⟩

/-- A concrete v2 index with one in-memory entry for the C10 witness. -/
def c10_index : HgIndex := ⟨.v2, [], 0, none, [pack_entry_v2 c10_entry]⟩

set_option maxRecDepth 8192 in
/-- Witness for C10 at a concrete one-entry v2 index. -/
theorem claim_C10_witness :
    (∃ idx' e, c10_index.replace_sidedata_info (0 : Int) 4096 77 65536 = some idx' ∧
      c10_index.getItem (0 : Int) = some e ∧
      idx'.getItem (0 : Int) = some { e with offset_flags := 65536, sidedata_offset := 4096,
                                             sidedata_length := 77 } ∧
      idx'.length = c10_index.length ∧
      ∀ j : Int, j ≠ (0 : Int) → idx'.getItem j = c10_index.getItem j) ∧
    (∀ i : Int, i < 0 → c10_index.replace_sidedata_info i 4096 77 65536 = none) ∧
    (∀ p : Nat, p < c10_index.lgt →
      c10_index.replace_sidedata_info (p : Int) 4096 77 65536 = none) :=
  claim_C10_replace_sidedata c10_index rfl (by decide) 0 (by decide) (by decide)
    4096 77 65536 (by decide) (by decide) (by decide) (by decide)

end Hg

namespace Hg

/-- The state of `RevlogDocket` (docket.py).  The VFS-related fields
(`radix`, `path`, `opener`) play no part in the claims and are omitted;
byte strings are byte lists. -/
structure RevlogDocket where
  version_header : Nat
  read_only : Bool
  dirty : Bool
  index_uuid : List Nat
  data_uuid : List Nat
  initial_index_end : Nat
  pending_index_end : Nat
  initial_data_end : Nat
  pending_data_end : Nat
  index_end : Nat
  data_end : Nat
  default_compression_header : Nat
deriving DecidableEq

/-- `RevlogDocket.__init__`; `none` models a failed assertion
(`assert index_end <= pending_index_end` and
`assert data_end <= pending_data_end`). -/
def mkDocket (use_pending : Bool) (version_header : Nat) (index_uuid data_uuid : List Nat)
    (index_end pending_index_end data_end pending_data_end : Nat)
    (default_compression_header : Nat) : Option RevlogDocket :=
  if index_end ≤ pending_index_end ∧ data_end ≤ pending_data_end then
    some { version_header := version_header
           read_only := use_pending
           dirty := false
           index_uuid := index_uuid
           data_uuid := data_uuid
           initial_index_end := index_end
           pending_index_end := pending_index_end
           initial_data_end := data_end
           pending_data_end := pending_data_end
           index_end := if use_pending then pending_index_end else index_end
           data_end := if use_pending then pending_data_end else data_end
           default_compression_header := default_compression_header }
  else none

/-- The `index_end` setter: dirties the docket when the size changes. -/
def RevlogDocket.set_index_end (d : RevlogDocket) (new_size : Nat) : RevlogDocket :=
  if new_size ≠ d.index_end then { d with index_end := new_size, dirty := true } else d

/-- The `data_end` setter: dirties the docket when the size changes. -/
def RevlogDocket.set_data_end (d : RevlogDocket) (new_size : Nat) : RevlogDocket :=
  if new_size ≠ d.data_end then { d with data_end := new_size, dirty := true } else d

/-- `RevlogDocket._serialize`: the official sizes are the initially
committed ones in pending mode and the current in-memory ones otherwise;
asserts `official_data_end <= self._data_end` (`none` models the failed
assertion, an internal programming error).  The header format is
`S_HEADER = >IBBLLLLc` (4-byte version word, two 1-byte uuid lengths, four
4-byte sizes, 1-byte compression header) followed by the two uuid byte
strings; the narrative comment in docket.py announces 8-byte sizes, but the
struct format letter `L` is 4 bytes and the model follows the code. -/
def RevlogDocket.serialize (d : RevlogDocket) (pending : Bool) : Option (List Nat) :=
  if (if pending then d.initial_data_end else d.data_end) ≤ d.data_end then
    some (toBytesBE 4 d.version_header ++
      ([d.index_uuid.length % 256] ++
        ([d.data_uuid.length % 256] ++
          (toBytesBE 4 (if pending then d.initial_index_end else d.index_end) ++
            (toBytesBE 4 d.index_end ++
              (toBytesBE 4 (if pending then d.initial_data_end else d.data_end) ++
                (toBytesBE 4 d.data_end ++
                  ([d.default_compression_header % 256] ++
                    (d.index_uuid ++ d.data_uuid)))))))))
  else none

/-- The observable effects of one call to `RevlogDocket.write`: the returned
boolean, whether an undo backup was registered with the transaction, the
bytes written atomically to the docket file (if any), and the docket state
afterwards. -/
structure WriteOutcome where
  returned : Bool
  backup_registered : Bool
  bytes_written : Option (List Nat)
  docket : RevlogDocket
deriving DecidableEq

/-- `RevlogDocket.write`; `none` models the `ProgrammingError` raised for a
dirty read-only docket and the failed assertion inside `_serialize`. -/
def RevlogDocket.write (d : RevlogDocket) (pending stripping : Bool) : Option WriteOutcome :=
  if ¬ d.dirty then some ⟨false, false, none, d⟩
  else if d.read_only then none
  else
    match d.serialize pending with
    | none => none
    | some bs => some ⟨true, !stripping, some bs, { d with dirty := pending }⟩

theorem serialize_fields (d : RevlogDocket) (pending : Bool) (bs : List Nat)
    (h : d.serialize pending = some bs) :
    (bs.drop 6).take 4 = toBytesBE 4 (if pending then d.initial_index_end else d.index_end) ∧
    (bs.drop 10).take 4 = toBytesBE 4 d.index_end ∧
    (bs.drop 14).take 4 = toBytesBE 4 (if pending then d.initial_data_end else d.data_end) ∧
    (bs.drop 18).take 4 = toBytesBE 4 d.data_end := by
  unfold RevlogDocket.serialize at h
  by_cases hcond : (if pending then d.initial_data_end else d.data_end) ≤ d.data_end
  case neg =>
    rw [if_neg hcond] at h
    exact absurd h (by simp)
  case pos =>
    rw [if_pos hcond] at h
    have hbs := Option.some.inj h
    subst hbs
    have h0 : (toBytesBE 4 d.version_header ++
        ([d.index_uuid.length % 256] ++
          ([d.data_uuid.length % 256] ++
            (toBytesBE 4 (if pending then d.initial_index_end else d.index_end) ++
              (toBytesBE 4 d.index_end ++
                (toBytesBE 4 (if pending then d.initial_data_end else d.data_end) ++
                  (toBytesBE 4 d.data_end ++
                    ([d.default_compression_header % 256] ++
                      (d.index_uuid ++ d.data_uuid))))))))).drop 0 = _ := List.drop_zero _
    have h4 := drop_chunk h0 (toBytesBE_length 4 d.version_header)
    have h5 := drop_chunk h4 (List.length_singleton _)
    have h6 := drop_chunk h5 (List.length_singleton _)
    have h10 := drop_chunk h6 (toBytesBE_length 4 _)
    have h14 := drop_chunk h10 (toBytesBE_length 4 _)
    have h18 := drop_chunk h14 (toBytesBE_length 4 _)
    norm_num at h4 h5 h6 h10 h14 h18
    simp only [List.singleton_append]
    refine ⟨?_, ?_, ?_, ?_⟩
    · rw [h6]
      exact take_append_len _ _ _ (toBytesBE_length 4 _)
    · rw [h10]
      exact take_append_len _ _ _ (toBytesBE_length 4 _)
    · rw [h14]
      exact take_append_len _ _ _ (toBytesBE_length 4 _)
    · rw [h18]
      exact take_append_len _ _ _ (toBytesBE_length 4 _)

end Hg

namespace Hg

/-- C4 (amended): `write` returns false and changes nothing when the docket
is not dirty; when dirty — unless the docket was opened read-only
(`use_pending`), in which case the write fails with a Programming error —
it registers an undo backup with the transaction exactly when not
stripping, writes the serialized form atomically and returns true; and a
pending-mode serialization carries the previously committed values in the
official index and data end slots and the current in-memory values in the
pending slots. -/
theorem claim_C4_docket_write (d : RevlogDocket) (pending stripping : Bool) :
    (d.dirty = false → d.write pending stripping = some ⟨false, false, none, d⟩) ∧
    (d.dirty = true → d.read_only = false →
      (if pending then d.initial_data_end else d.data_end) ≤ d.data_end →
      ∃ bs, d.serialize pending = some bs ∧
        d.write pending stripping = some ⟨true, !stripping, some bs,
          { d with dirty := pending }⟩) ∧
    (d.dirty = true → d.read_only = true → d.write pending stripping = none) ∧
    (∀ bs, d.serialize true = some bs →
      d.initial_index_end < 2 ^ 32 → d.index_end < 2 ^ 32 →
      d.initial_data_end < 2 ^ 32 → d.data_end < 2 ^ 32 →
      fromBytesBE ((bs.drop 6).take 4) = d.initial_index_end ∧
      fromBytesBE ((bs.drop 10).take 4) = d.index_end ∧
      fromBytesBE ((bs.drop 14).take 4) = d.initial_data_end ∧
      fromBytesBE ((bs.drop 18).take 4) = d.data_end) := by
  refine ⟨?_, ?_, ?_, ?_⟩
  · intro hd
    unfold RevlogDocket.write
    rw [if_pos (by simp [hd])]
  · intro hd hro hser
    have hs : ∃ bs, d.serialize pending = some bs := by
      unfold RevlogDocket.serialize
      rw [if_pos hser]
      exact ⟨_, rfl⟩
    obtain ⟨bs, hbs⟩ := hs
    refine ⟨bs, hbs, ?_⟩
    unfold RevlogDocket.write
    rw [if_neg (by simp [hd]), if_neg (by simp [hro]), hbs]
  · intro hd hro
    unfold RevlogDocket.write
    rw [if_neg (by simp [hd]), if_pos (by simp [hro])]
  · intro bs hbs h1 h2 h3 h4
    obtain ⟨f6, f10, f14, f18⟩ := serialize_fields d true bs hbs
    have e32 : ∀ x : Nat, x < 2 ^ 32 → x < 2 ^ (8 * 4) := by
      intro x hx
      have he : (2 : Nat) ^ (8 * 4) = 2 ^ 32 := by norm_num
      rw [he]
      exact hx
    simp only [if_pos rfl] at f6 f14
    rw [f6, f10, f14, f18]
    exact ⟨fromBytesBE_toBytesBE 4 _ (e32 _ h1), fromBytesBE_toBytesBE 4 _ (e32 _ h2),
      fromBytesBE_toBytesBE 4 _ (e32 _ h3), fromBytesBE_toBytesBE 4 _ (e32 _ h4)⟩

/-- The docket produced by parsing with `use_pending=True` (read-only), all
sizes zero, used in the C4 counterexample. -/
def c4_ro_docket : RevlogDocket := ⟨10, true, false, [97], [98], 0, 0, 0, 0, 0, 0, 120⟩

/-- C4 counterexample: a docket opened read-only (`use_pending=True`) and
then dirtied by an `index_end` update makes `write` raise a Programming
error instead of registering a backup, writing, and returning true. -/
theorem claim_C4_counterexample :
    mkDocket true 10 [97] [98] 0 0 0 0 120 = some c4_ro_docket ∧
    (c4_ro_docket.set_index_end 5).dirty = true ∧
    (c4_ro_docket.set_index_end 5).write false false = none := by
  refine ⟨by decide, by decide, by decide⟩

/-- A clean (not dirty) docket for the C4 witness. -/
def c4_clean_docket : RevlogDocket := ⟨10, false, false, [97], [98], 3, 4, 5, 6, 3, 5, 120⟩

/-- A dirty writable docket for the C4 witness. -/
def c4_dirty_docket : RevlogDocket := ⟨10, false, true, [97], [98], 3, 4, 5, 6, 7, 8, 120⟩

/-- Witness for C4: the no-op clean write and a successful dirty pending
write at concrete dockets. -/
theorem claim_C4_witness :
    (c4_clean_docket.write false false = some ⟨false, false, none, c4_clean_docket⟩) ∧
    (∃ bs, c4_dirty_docket.serialize true = some bs ∧
      c4_dirty_docket.write true false = some ⟨true, !false, some bs,
        { c4_dirty_docket with dirty := true }⟩) :=
  ⟨(claim_C4_docket_write c4_clean_docket false false).1 rfl,
   (claim_C4_docket_write c4_dirty_docket true false).2.1 rfl rfl (by decide)⟩

/-- C5 (amended): the orderings official-index-end ≤ pending-index-end and
official-data-end ≤ pending-data-end are asserted at construction; at
serialization only the data-side ordering official-data-end ≤ current
data-end is checked, failing with a Programming error, and every produced
serialization satisfies it; the index-side ordering is not checked at
serialization, and a pending write issued after shrinking `index_end`
below the committed value produces output whose official index end exceeds
its pending index end. -/
theorem claim_C5_docket_ordering (up : Bool) (vh : Nat) (iu du : List Nat)
    (ie pie de pde comp : Nat) (d : RevlogDocket) (pending : Bool) :
    ((mkDocket up vh iu du ie pie de pde comp).isSome ↔ ie ≤ pie ∧ de ≤ pde) ∧
    (d.serialize pending = none ↔
      ¬((if pending then d.initial_data_end else d.data_end) ≤ d.data_end)) ∧
    (∀ bs, d.serialize pending = some bs →
      d.initial_data_end < 2 ^ 32 → d.data_end < 2 ^ 32 →
      fromBytesBE ((bs.drop 14).take 4) ≤ fromBytesBE ((bs.drop 18).take 4)) := by
  refine ⟨?_, ?_, ?_⟩
  · unfold mkDocket
    by_cases hc : ie ≤ pie ∧ de ≤ pde
    · rw [if_pos hc]
      simpa using hc
    · rw [if_neg hc]
      simpa using hc
  · unfold RevlogDocket.serialize
    by_cases hc : (if pending then d.initial_data_end else d.data_end) ≤ d.data_end
    · rw [if_pos hc]
      simpa using hc
    · rw [if_neg hc]
      simpa using hc
  · intro bs hbs h1 h2
    obtain ⟨-, -, f14, f18⟩ := serialize_fields d pending bs hbs
    have hc : (if pending then d.initial_data_end else d.data_end) ≤ d.data_end := by
      by_contra hnc
      have : d.serialize pending = none := by
        unfold RevlogDocket.serialize
        rw [if_neg hnc]
      rw [this] at hbs
      cases hbs
    have e32 : ∀ x : Nat, x < 2 ^ 32 → x < 2 ^ (8 * 4) := by
      intro x hx
      have he : (2 : Nat) ^ (8 * 4) = 2 ^ 32 := by norm_num
      rw [he]
      exact hx
    rw [f14, f18, fromBytesBE_toBytesBE 4 _ (e32 _ (by split <;> omega)),
      fromBytesBE_toBytesBE 4 _ (e32 _ h2)]
    exact hc

/-- The docket of the C5 counterexample before shrinking: committed index
end 10 and data end 0. -/
def c5_docket : RevlogDocket := ⟨7, false, false, [97], [98], 10, 10, 0, 0, 10, 0, 120⟩

/-- C5 counterexample: after shrinking `index_end` below the committed
value, a pending-mode write succeeds and produces output whose official
index end slot (10) exceeds its pending index end slot (5): the index-side
ordering is violated without a Programming error. -/
theorem claim_C5_counterexample :
    mkDocket false 7 [97] [98] 10 10 0 0 120 = some c5_docket ∧
    (c5_docket.set_index_end 5).dirty = true ∧
    ((c5_docket.set_index_end 5).serialize true).isSome = true ∧
    ((c5_docket.set_index_end 5).write true false).isSome = true ∧
    fromBytesBE (((((c5_docket.set_index_end 5).serialize true).getD []).drop 6).take 4)
      = 10 ∧
    fromBytesBE (((((c5_docket.set_index_end 5).serialize true).getD []).drop 10).take 4)
      = 5 := by
  refine ⟨by decide, by decide, by decide, by decide, by decide, by decide⟩

/-- Witness for C5 at concrete inputs: a constructor run with ordered sizes
and a serialization whose data slots respect the ordering. -/
theorem claim_C5_witness :
    (mkDocket false 7 [97] [98] 10 10 0 0 120).isSome ∧
    fromBytesBE ((((c4_dirty_docket.serialize true).getD []).drop 14).take 4) ≤
      fromBytesBE ((((c4_dirty_docket.serialize true).getD []).drop 18).take 4) :=
  ⟨(claim_C5_docket_ordering false 7 [97] [98] 10 10 0 0 120 c4_dirty_docket true).1.mpr
      (by decide),
   (claim_C5_docket_ordering false 7 [97] [98] 10 10 0 0 120 c4_dirty_docket true).2.2 _
      (by decide) (by decide) (by decide)⟩

end Hg

namespace Hg

/-- Modelled from the spec: the delta-reuse policies passed to
`Revlog.clone` (`never`, `same-revs`, `full-add`, `always`); the module
that defines the numeric constants (mercurial/revlog.py) is not among the
sources and only the identity of each policy matters. -/
inductive DeltaReuse where
  | never
  | samerevs
  | fulladd
  | always
deriving DecidableEq

/-- The delta-reuse selection chain of `upgrade` (engine.py). -/
def upgrade_deltareuse (actions : List String) : DeltaReuse :=
  if "re-delta-all" ∈ actions then DeltaReuse.never
  else if "re-delta-parent" ∈ actions then DeltaReuse.samerevs
  else if "re-delta-multibase" ∈ actions then DeltaReuse.samerevs
  else if "re-delta-fulladd" ∈ actions then DeltaReuse.fulladd
  else DeltaReuse.always

/-- Byte-string `endswith`, evaluated through the character list so that it
reduces in the kernel. -/
def endswith (s suffix : String) : Bool := suffix.toList.isSuffixOf s.toList

/-- Byte-string `startswith`, evaluated through the character list. -/
def startswith (s pre : String) : Bool := pre.toList.isPrefixOf s.toList

/-- engine.py `matchrevlog`: which filter token governs a store entry. -/
def matchrevlog (revlogfilter : List String) (entry : String) : Bool :=
  if endswith entry "00changelog.i" then decide ("changelog" ∈ revlogfilter)
  else if endswith entry "00manifest.i" then decide ("manifest" ∈ revlogfilter)
  else decide ("all-filelogs" ∈ revlogfilter)

/-- What the copy loop of `_clonerevlogs` does with one store entry:
entries ending in `.d` are skipped (handled with their index file), entries
selected by the filter are cloned through `Revlog.clone` with the chosen
delta-reuse mode, and the rest are copied byte for byte by `_copyrevlog`
through the VFS. -/
inductive CloneAction where
  | skipped
  | cloned (mode : DeltaReuse)
  | copied
deriving DecidableEq

/-- The dispatch of `_clonerevlogs` for one entry, with the delta-reuse
mode computed by `upgrade` from the optimisation action set. -/
def clonerevlogs_action (actions revlogfilter : List String) (unencoded : String) :
    CloneAction :=
  if endswith unencoded ".d" then CloneAction.skipped
  else if matchrevlog revlogfilter unencoded then
    CloneAction.cloned (upgrade_deltareuse actions)
  else CloneAction.copied

/-- C6: the delta-reuse mode for `Revlog.clone` is selected from the
optimisation set by the ordered chain re-delta-all → never,
re-delta-parent / re-delta-multibase → same-revs, re-delta-fulladd →
full-add, anything else → always; and every revlog not selected by the
revlog filter is copied byte for byte via the VFS instead of being
cloned. -/
theorem claim_C6_deltareuse_and_copy (actions revlogfilter : List String) (p : String) :
    ("re-delta-all" ∈ actions → upgrade_deltareuse actions = DeltaReuse.never) ∧
    ("re-delta-all" ∉ actions → "re-delta-parent" ∈ actions →
      upgrade_deltareuse actions = DeltaReuse.samerevs) ∧
    ("re-delta-all" ∉ actions → "re-delta-parent" ∉ actions →
      "re-delta-multibase" ∈ actions →
      upgrade_deltareuse actions = DeltaReuse.samerevs) ∧
    ("re-delta-all" ∉ actions → "re-delta-parent" ∉ actions →
      "re-delta-multibase" ∉ actions → "re-delta-fulladd" ∈ actions →
      upgrade_deltareuse actions = DeltaReuse.fulladd) ∧
    ("re-delta-all" ∉ actions → "re-delta-parent" ∉ actions →
      "re-delta-multibase" ∉ actions → "re-delta-fulladd" ∉ actions →
      upgrade_deltareuse actions = DeltaReuse.always) ∧
    (¬ endswith p ".d" → matchrevlog revlogfilter p = false →
      clonerevlogs_action actions revlogfilter p = CloneAction.copied) ∧
    (¬ endswith p ".d" → matchrevlog revlogfilter p = true →
      clonerevlogs_action actions revlogfilter p =
        CloneAction.cloned (upgrade_deltareuse actions)) := by
  refine ⟨?_, ?_, ?_, ?_, ?_, ?_, ?_⟩
  · intro h
    simp [upgrade_deltareuse, h]
  · intro h1 h2
    simp [upgrade_deltareuse, h1, h2]
  · intro h1 h2 h3
    simp [upgrade_deltareuse, h1, h2, h3]
  · intro h1 h2 h3 h4
    simp [upgrade_deltareuse, h1, h2, h3, h4]
  · intro h1 h2 h3 h4
    simp [upgrade_deltareuse, h1, h2, h3, h4]
  · intro h1 h2
    simp [clonerevlogs_action, h1, h2]
  · intro h1 h2
    simp [clonerevlogs_action, h1, h2]

/-- Witness for C6 at concrete action sets, filter and path. -/
theorem claim_C6_witness :
    (upgrade_deltareuse ["re-delta-parent"] = DeltaReuse.samerevs) ∧
    (clonerevlogs_action ["re-delta-parent"] ["changelog"] "data/foo.i" =
      CloneAction.copied) ∧
    (clonerevlogs_action ["re-delta-parent"] ["changelog"] "00changelog.i" =
      CloneAction.cloned (upgrade_deltareuse ["re-delta-parent"])) :=
  ⟨(claim_C6_deltareuse_and_copy ["re-delta-parent"] ["changelog"] "x").2.1
      (by decide) (by decide),
   (claim_C6_deltareuse_and_copy ["re-delta-parent"] ["changelog"] "data/foo.i").2.2.2.2.2.1
      (by decide) (by decide),
   (claim_C6_deltareuse_and_copy ["re-delta-parent"] ["changelog"] "00changelog.i").2.2.2.2.2.2
      (by decide) (by decide)⟩

/-- `stat.S_IFREG` (regular file bit of `st_mode`). -/
def S_IFREG : Nat := 32768

/-- engine.py `_filterstorefile` (the repository handles and the
requirement set do not influence the result and are omitted). -/
def filterstorefile (path : String) (mode : Nat) : Bool :=
  if endswith path ".i" ∨ endswith path ".d" ∨ endswith path ".n" ∨ endswith path ".nd" then
    false
  else if startswith path "undo" then false
  else if mode ≠ S_IFREG then false
  else if path = "lock" ∨ path = "fncache" then false
  else true

/-- C7: a store path examined during the non-revlog copy phase of upgrade
is copied if and only if its name does not end with `.i`, `.d`, `.n` or
`.nd`, does not start with `undo`, refers to a regular file, and is not
exactly `lock` or `fncache`. -/
theorem claim_C7_store_copy (path : String) (mode : Nat) :
    filterstorefile path mode = true ↔
      (¬ endswith path ".i" ∧ ¬ endswith path ".d" ∧ ¬ endswith path ".n" ∧
       ¬ endswith path ".nd" ∧ ¬ startswith path "undo" ∧ mode = S_IFREG ∧
       path ≠ "lock" ∧ path ≠ "fncache") := by
  unfold filterstorefile
  constructor
  · intro h
    by_cases hA : endswith path ".i" ∨ endswith path ".d" ∨ endswith path ".n" ∨
        endswith path ".nd"
    · rw [if_pos hA] at h
      exact absurd h (by simp)
    · rw [if_neg hA] at h
      by_cases hB : startswith path "undo"
      · rw [if_pos hB] at h
        exact absurd h (by simp)
      · rw [if_neg hB] at h
        by_cases hC : mode ≠ S_IFREG
        · rw [if_pos hC] at h
          exact absurd h (by simp)
        · rw [if_neg hC] at h
          by_cases hD : path = "lock" ∨ path = "fncache"
          · rw [if_pos hD] at h
            exact absurd h (by simp)
          · push_neg at hA hC hD
            exact ⟨by simp [hA.1], by simp [hA.2.1], by simp [hA.2.2.1], by simp [hA.2.2.2],
              hB, hC, hD.1, hD.2⟩
  · rintro ⟨c1, c2, c3, c4, c5, c6, c7, c8⟩
    rw [if_neg (by simp [c1, c2, c3, c4]), if_neg c5, if_neg (by simp [c6]),
      if_neg (by push_neg; exact ⟨c7, c8⟩)]

end Hg
